import Mathlib

/-!
# Verification of the Distributed-File-System repository

Shallow embedding of the consensus core (`raft_node.py`) and the file-server
layer (`file_server.py`, `file.py`) of the repository, together with theorems
settling the frozen claims about it.

Modelling conventions:
* Python wall-clock floats (`time.time()`, `random.uniform(1, 2)`) become `ℚ`
  values passed in as explicit parameters of each step (the code draws them
  from the environment; the embedding quantifies over them).
* Replica identifiers are a type parameter `α` with decidable equality
  (the repository uses strings such as `'server1'`; the cluster-level model
  instantiates `α := Fin n`).
* Each Python message handler runs under the per-replica lock and is embedded
  as one atomic function from a replica state and a message payload to a new
  replica state plus the list of messages it sends.
-/

namespace DFS

/-- Replica roles, `raft_node.py` stores them in `self.state` as the strings
`'follower' | 'candidate' | 'leader' | 'stopped'`. -/
inductive Role where
  | follower
  | candidate
  | leader
  | stopped
deriving DecidableEq, Repr

/-- One entry of `self.log`: the dict `{'term': ..., 'entry': ...}` appended by
`FileServer.replicate_log`.  The operation payload is kept abstract as a
string-keyed operation record (see `FileOp` below for the file-server ops). -/
structure LogEntry (ε : Type) where
  term : Nat
  entry : ε
deriving DecidableEq, Repr

/-- Payload of a `request_vote` message (`RaftNode.start_election`). -/
structure RequestVoteMsg (α : Type) where
  term : Nat
  candidateId : α
  lastLogIndex : Nat
  lastLogTerm : Nat
  sourceId : α
deriving DecidableEq, Repr

/-- Payload of a `vote_response` message (`RaftNode.handle_request_vote`). -/
structure VoteResponseMsg (α : Type) where
  term : Nat
  voteGranted : Bool
  sourceId : α
deriving DecidableEq, Repr

/-- Payload of an `append_entries` message (`RaftNode.send_heartbeats`).
`prev_log_index` is `len(self.log) - 1`, which is `-1` on an empty log,
hence `Int`. -/
structure AppendEntriesMsg (α ε : Type) where
  term : Nat
  leaderId : α
  prevLogIndex : Int
  prevLogTerm : Nat
  entries : List (LogEntry ε)
  leaderCommit : Nat
deriving DecidableEq, Repr

/-- Payload of an `append_entries_response` message
(`RaftNode.handle_append_entries`). -/
structure AppendEntriesRespMsg where
  term : Nat
  success : Bool
deriving DecidableEq, Repr

/-- The message union carried by `NetworkManager` between replicas
(client-facing file messages are modelled separately at the file-server
layer). -/
inductive RaftMsg (α ε : Type) where
  | requestVote (m : RequestVoteMsg α)
  | voteResponse (m : VoteResponseMsg α)
  | appendEntries (m : AppendEntriesMsg α ε)
  | appendEntriesResponse (m : AppendEntriesRespMsg)
deriving DecidableEq, Repr

/-- The mutable state of `RaftNode.__init__`.  `next_index`/`match_index`
are initialised to `0` for every peer and never updated by the source; they
are kept as association lists for fidelity. -/
structure RaftState (α ε : Type) where
  serverId : α
  peers : List α
  state : Role
  currentTerm : Nat
  votedFor : Option α
  commitIndex : Nat
  lastApplied : Nat
  nextIndex : List (α × Nat)
  matchIndex : List (α × Nat)
  log : List (LogEntry ε)
  electionTimeout : ℚ
  lastHeartbeat : ℚ
  leaderId : Option α
  votesReceived : Nat
deriving DecidableEq, Repr

/-- `RaftNode.__init__`: fresh follower at term 0.  `timeout0` is the initial
`random.uniform(1, 2)` draw and `now0` the initial `time.time()`. -/
def initRaft {α ε : Type} (serverId : α) (peers : List α)
    (timeout0 now0 : ℚ) : RaftState α ε where
  serverId := serverId
  peers := peers
  state := .follower
  currentTerm := 0
  votedFor := none
  commitIndex := 0
  lastApplied := 0
  nextIndex := peers.map (fun p => (p, 0))
  matchIndex := peers.map (fun p => (p, 0))
  log := []
  electionTimeout := timeout0
  lastHeartbeat := now0
  leaderId := none
  votesReceived := 0

/-- `self.log[-1]['term'] if self.log else 0`. -/
def lastLogTerm {α ε : Type} (s : RaftState α ε) : Nat :=
  match s.log.getLast? with
  | some e => e.term
  | none => 0

/-- `RaftNode.handle_request_vote`.  Returns the new replica state together
with the `vote_response` sent to `candidate_id`.  Note that the response
dict — including its `term` field — is built *before* the higher-term
adoption branch runs, so a granted response can carry a stale term.
`now`/`newTimeout` stand for the `time.time()` / `random.uniform(1, 2)`
calls in the adoption branch. -/
def handleRequestVote {α ε : Type} [DecidableEq α] (s : RaftState α ε)
    (m : RequestVoteMsg α) (now newTimeout : ℚ) :
    RaftState α ε × (α × VoteResponseMsg α) :=
  let respTerm := s.currentTerm
  let s1 :=
    if m.term > s.currentTerm then
      { s with currentTerm := m.term
               votedFor := none
               state := .follower
               lastHeartbeat := now
               electionTimeout := newTimeout }
    else s
  if (s1.votedFor = none ∨ s1.votedFor = some m.candidateId) ∧
      m.term ≥ s1.currentTerm then
    ({ s1 with votedFor := some m.candidateId, currentTerm := m.term },
      (m.candidateId,
        { term := respTerm, voteGranted := true, sourceId := s.serverId }))
  else
    (s1,
      (m.candidateId,
        { term := respTerm, voteGranted := false, sourceId := s.serverId }))

/-- Majority threshold used in `RaftNode.handle_vote_response`:
`(len(self.peers) + 1) // 2`. -/
def majorityThreshold {α ε : Type} (s : RaftState α ε) : Nat :=
  (s.peers.length + 1) / 2

/-- `RaftNode.handle_vote_response`.  Pure state transformer (it sends
nothing); promotion to leader spawns the heartbeat thread, which the
cluster-level model renders as the enabledness of the heartbeat step. -/
def handleVoteResponse {α ε : Type} (s : RaftState α ε)
    (m : VoteResponseMsg α) : RaftState α ε :=
  if s.state ≠ Role.candidate then s
  else if m.term > s.currentTerm then
    { s with currentTerm := m.term, state := .follower, votedFor := none }
  else if m.term < s.currentTerm then s
  else if m.voteGranted then
    let votes := s.votesReceived + 1
    if votes > majorityThreshold s then
      { s with votesReceived := votes, state := .leader,
               leaderId := some s.serverId }
    else
      { s with votesReceived := votes }
  else s

/-- `RaftNode.handle_append_entries`.  Returns the new state and the
`append_entries_response` sent to the message's `leader_id`. -/
def handleAppendEntries {α ε : Type} (s : RaftState α ε)
    (m : AppendEntriesMsg α ε) (now newTimeout : ℚ) :
    RaftState α ε × (α × AppendEntriesRespMsg) :=
  if m.term ≥ s.currentTerm then
    ({ s with currentTerm := m.term
              state := .follower
              votedFor := some m.leaderId
              leaderId := some m.leaderId
              lastHeartbeat := now
              electionTimeout := newTimeout },
      (m.leaderId, { term := m.term, success := true }))
  else
    (s, (m.leaderId, { term := s.currentTerm, success := false }))

/-- `RaftNode.handle_append_entries_response`. -/
def handleAppendEntriesResponse {α ε : Type} (s : RaftState α ε)
    (m : AppendEntriesRespMsg) : RaftState α ε :=
  if m.term > s.currentTerm then
    { s with currentTerm := m.term, state := .follower, votedFor := none,
             leaderId := none }
  else s

/-- `RaftNode.start_election`: become candidate, bump the term, vote for
self, reset `votes_received` to 1 (the self-vote) and the election timeout,
and broadcast `request_vote` to every peer.  The election-timer loop
(`run_election_timer`) additionally sets `last_heartbeat = time.time()`
right after `start_election()` returns, so `now` is applied here too. -/
def startElection {α ε : Type} (s : RaftState α ε) (now newTimeout : ℚ) :
    RaftState α ε × List (α × RequestVoteMsg α) :=
  let newTerm := s.currentTerm + 1
  ({ s with state := .candidate
            currentTerm := newTerm
            votedFor := some s.serverId
            votesReceived := 1
            electionTimeout := newTimeout
            lastHeartbeat := now },
    s.peers.map (fun p =>
      (p, { term := newTerm
            candidateId := s.serverId
            lastLogIndex := s.log.length
            lastLogTerm := lastLogTerm s
            sourceId := s.serverId })))

/-- `RaftNode.become_leader`: unconditionally assume leadership at the
current term (the harness `main.py` calls this once on a designated
replica).  Spawning the heartbeat thread is rendered as enabledness of
the heartbeat step. -/
def becomeLeader {α ε : Type} (s : RaftState α ε) : RaftState α ε :=
  { s with state := .leader, leaderId := some s.serverId }

/-- One round of `RaftNode.send_heartbeats`: an `append_entries` with an
empty `entries` list to every peer, carrying the leader's current term. -/
def sendHeartbeats {α ε : Type} (s : RaftState α ε) :
    List (α × AppendEntriesMsg α ε) :=
  s.peers.map (fun p =>
    (p, { term := s.currentTerm
          leaderId := s.serverId
          prevLogIndex := (s.log.length : Int) - 1
          prevLogTerm := lastLogTerm s
          entries := []
          leaderCommit := s.commitIndex }))

/-! ## File-server layer (`file.py`, `file_server.py`) -/

/-- `file.py` `FileVersion`. -/
structure FileVersion where
  content : String
  timestamp : ℚ
  version : Nat
deriving DecidableEq, Repr

/-- `file.py` `Lease`. -/
structure Lease (α : Type) where
  lessee : α
  expiryTime : ℚ
deriving DecidableEq, Repr

/-- `Lease.is_expired`: `time.time() > self.expiry_time`, with the
`time.time()` call passed in as `now`. -/
def Lease.isExpired {α : Type} (l : Lease α) (now : ℚ) : Bool :=
  now > l.expiryTime

/-- `file.py` `File`. -/
structure File (α : Type) where
  filename : String
  ownerServerId : α
  versions : List FileVersion
  lease : Option (Lease α)
deriving DecidableEq, Repr

/-- `File.add_version`: append version number `len(versions) + 1` stamped
with the current wall clock. -/
def File.addVersion {α : Type} (f : File α) (content : String) (now : ℚ) :
    File α :=
  { f with versions :=
      f.versions ++ [{ content := content, timestamp := now,
                       version := f.versions.length + 1 }] }

/-- `File.get_latest_version`. -/
def File.getLatestVersion {α : Type} (f : File α) : Option FileVersion :=
  f.versions.getLast?

/-- Operations recorded in log entries by `FileServer.replicate_log`. -/
inductive FileOp where
  | createFile (filename : String)
  | writeFile (filename content : String)
  | deleteFile (filename : String)
deriving DecidableEq, Repr

/-- The JSON record `save_file` writes for one file:
`{filename, owner_server_id, versions}`. -/
structure StoredFile (α : Type) where
  filename : String
  ownerServerId : α
  versions : List FileVersion
deriving DecidableEq, Repr

/-- Client-facing / file-level messages of `file_server.py` and
`client.py`. -/
inductive FileMsg (α : Type) where
  | createFile (filename : String) (clientId : α)
  | readFile (filename : String) (clientId : α)
  | writeFile (filename content : String) (clientId : α)
  | deleteFile (filename : String) (clientId : α)
  | createFileResponse (success : Bool)
  | readFileResponse (content : String)
  | writeFileResponse (success : Bool)
  | deleteFileResponse (success : Bool)
  | requestLease (filename : String) (duration : ℚ) (lesseeId : α)
  | releaseLease (filename : String) (lesseeId : α)
deriving DecidableEq, Repr

/-- Lookup in a Python-dict modelled as an association list. -/
def alookup {β : Type} (l : List (String × β)) (k : String) : Option β :=
  match l.find? (fun p => p.1 == k) with
  | some p => some p.2
  | none => none

/-- Python dict assignment `d[k] = v`: replace in place if present, else
append. -/
def ainsert {β : Type} (l : List (String × β)) (k : String) (v : β) :
    List (String × β) :=
  if (l.find? (fun p => p.1 == k)).isSome then
    l.map (fun p => if p.1 == k then (k, v) else p)
  else l ++ [(k, v)]

/-- Python dict deletion `del d[k]`. -/
def aerase {β : Type} (l : List (String × β)) (k : String) :
    List (String × β) :=
  l.filter (fun p => p.1 != k)

/-- State of `FileServer` (which subclasses `RaftNode`).  `storage` models
the per-server persistence sink written by `save_file` (keyed by filename;
the server id in the on-disk key is fixed per server).  `clientId` models
the attribute `self.client_id`, which is *never assigned* anywhere on
`FileServer` or `RaftNode`; `none` renders the absent attribute, whose
read raises `AttributeError`. -/
structure FSState (α : Type) extends RaftState α FileOp where
  files : List (String × File α)
  storageDir : String
  storage : List (String × StoredFile α)
  clientId : Option α
deriving DecidableEq, Repr

/-- `FileServer.__init__`. -/
def initFileServer {α : Type} (serverId : α) (peers : List α)
    (storageDir : String) (timeout0 now0 : ℚ) : FSState α :=
  { initRaft serverId peers timeout0 now0 with
    files := []
    storageDir := storageDir
    storage := []
    clientId := none }

/-- Python `AttributeError`, raised when reading a never-assigned
attribute. -/
inductive PyError where
  | attributeError
deriving DecidableEq, Repr

/-- Outcome of calling a `FileServer` method (or running a handler) on a
thread that does not yet hold `self.lock`.  `self.lock` is a
*non-reentrant* `threading.Lock`, so a method body that re-acquires it
while it is held — `save_file` and `replicate_log` both open with
`with self.lock:` and are called from inside it — blocks its own thread
forever.  `blocked s` records that the call never returns, with `s` the
shared state already mutated and visible to other threads at the blocking
point; `ret s v` is a normal return of `v`; `raised s e` an exception
escaping the method (the `with` block releases the lock on the way
out). -/
inductive CallRes (α β : Type) where
  | ret (s : FSState α) (v : β)
  | raised (s : FSState α) (e : PyError)
  | blocked (s : FSState α)
deriving DecidableEq, Repr

/-- The shared state visible after the call (at the point of return,
escape or permanent blocking). -/
def CallRes.st {α β : Type} : CallRes α β → FSState α
  | .ret s _ => s
  | .raised s _ => s
  | .blocked s => s

/-- `FileServer.create_file`.  The method body runs under `self.lock`; on
a new filename it inserts the file (one initial empty version) into the
map and then calls `save_file`, whose own `with self.lock:` re-acquires
the held non-reentrant lock — the thread blocks forever there: the
storage sink is never written, `replicate_log` is never reached and the
method never returns.  On an existing filename it returns `False`. -/
def createFile {α : Type} [DecidableEq α] (s : FSState α) (filename : String)
    (now : ℚ) : CallRes α Bool :=
  if alookup s.files filename = none then
    let f : File α :=
      ({ filename := filename, ownerServerId := s.serverId, versions := [],
         lease := none } : File α).addVersion "" now
    .blocked { s with files := ainsert s.files filename f }
  else .ret s false

/-- `FileServer.read_file`: latest content, or `""` when absent (no nested
lock acquisition — the method always returns). -/
def readFile {α : Type} (s : FSState α) (filename : String) : String :=
  match alookup s.files filename with
  | some f =>
      match f.getLatestVersion with
      | some v => v.content
      | none => ""
  | none => ""

/-- `FileServer.delete_file`.  Runs under `self.lock`; when the file is
present it removes the map entry and deletes the storage file directly
(`os.remove`, no nested lock), after which a *leader* calls
`replicate_log`, which re-acquires the held lock and blocks forever,
while a non-leader returns `True`.  An absent filename returns
`False`. -/
def deleteFile {α : Type} [DecidableEq α] (s : FSState α) (filename : String) :
    CallRes α Bool :=
  if (alookup s.files filename).isSome then
    let s1 := { s with files := aerase s.files filename,
                       storage := aerase s.storage filename }
    if s1.state = Role.leader then .blocked s1
    else .ret s1 true
  else .ret s false

/-- `FileServer.write_file` — the *method* (as opposed to the message
handler), running under `self.lock`.  A non-leader that knows a leader
builds the forwarding payload reading `self.client_id`, an attribute
never assigned on the class, so that branch raises `AttributeError`
before sending anything (the `with` block releases the lock on the way
out).  A non-leader without a known leader logs and returns.  A leader
with the file present appends the new version to the map and then blocks
forever inside `save_file`'s re-acquisition of the held lock (storage
sink and log untouched).  A leader with the file absent logs a warning
and returns. -/
def writeFile {α : Type} [DecidableEq α] (s : FSState α)
    (filename content : String) (now : ℚ) :
    CallRes α (List (α × FileMsg α)) :=
  if s.state ≠ Role.leader then
    match s.leaderId with
    | some l =>
        match s.clientId with
        | none => .raised s .attributeError
        | some cid => .ret s [(l, .writeFile filename content cid)]
    | none => .ret s []
  else
    match alookup s.files filename with
    | some f =>
        .blocked { s with
          files := ainsert s.files filename (f.addVersion content now) }
    | none => .ret s []

/-- `FileServer.handle_create_file`: call `create_file` (regardless of
role); when the call returns, acknowledge `data['client_id']` with
`create_file_response{success}`; when the call blocks on the re-entered
lock, the handler thread blocks with it and no response is ever sent; an
escaping exception would be swallowed by the handler's `try/except` (log
only, nothing sent). -/
def handleCreateFile {α : Type} [DecidableEq α] (s : FSState α)
    (filename : String) (clientId : α) (now : ℚ) :
    CallRes α (List (α × FileMsg α)) :=
  match createFile s filename now with
  | .ret s1 ok => .ret s1 [(clientId, .createFileResponse ok)]
  | .raised s1 _ => .ret s1 []
  | .blocked s1 => .blocked s1

/-- `FileServer.handle_read_file`. -/
def handleReadFile {α : Type} (s : FSState α) (filename : String)
    (clientId : α) : FSState α × List (α × FileMsg α) :=
  (s, [(clientId, .readFileResponse (readFile s filename))])

/-- `FileServer.handle_delete_file`: same shape as `handle_create_file`
over `delete_file`. -/
def handleDeleteFile {α : Type} [DecidableEq α] (s : FSState α)
    (filename : String) (clientId : α) :
    CallRes α (List (α × FileMsg α)) :=
  match deleteFile s filename with
  | .ret s1 ok => .ret s1 [(clientId, .deleteFileResponse ok)]
  | .raised s1 _ => .ret s1 []
  | .blocked s1 => .blocked s1

/-- `FileServer.handle_write_file`: a non-leader that knows a leader
forwards the payload verbatim (it re-sends `data`, so `self.client_id` is
not read here); a leader calls the `write_file` method and, if it
returns, acknowledges `success=True` unconditionally; when `write_file`
blocks, the handler blocks with it and nothing is sent; an escaping
exception is swallowed by the `try/except` (nothing sent); otherwise
(non-leader, no known leader) it only logs. -/
def handleWriteFile {α : Type} [DecidableEq α] (s : FSState α)
    (filename content : String) (clientId : α) (now : ℚ) :
    CallRes α (List (α × FileMsg α)) :=
  if s.state ≠ Role.leader then
    match s.leaderId with
    | some l => .ret s [(l, .writeFile filename content clientId)]
    | none => .ret s []
  else
    match writeFile s filename content now with
    | .ret s1 outbox =>
        .ret s1 (outbox ++ [(clientId, .writeFileResponse true)])
    | .raised s1 _ => .ret s1 []
    | .blocked s1 => .blocked s1

/-- `FileServer.handle_request_lease`: grant iff the file exists and its
lease is absent or expired; the boolean result is returned to the caller
(the message-dispatch loop discards it). -/
def handleRequestLease {α : Type} [DecidableEq α] (s : FSState α)
    (filename : String) (duration : ℚ) (lesseeId : α) (now : ℚ) :
    FSState α × Bool :=
  match alookup s.files filename with
  | some f =>
      let leaseFree := match f.lease with
        | none => true
        | some l => l.isExpired now
      let granted : File α :=
        { f with lease := some { lessee := lesseeId,
                                 expiryTime := now + duration } }
      if leaseFree then
        ({ s with files := ainsert s.files filename granted }, true)
      else (s, false)
  | none => (s, false)

/-- The inherited `RaftNode.handle_append_entries` invoked on a `FileServer`
instance: it assigns only consensus attributes, so the file map and the
persistence sink are untouched. -/
def handleAppendEntriesFS {α : Type} (s : FSState α)
    (m : AppendEntriesMsg α FileOp) (now newTimeout : ℚ) :
    FSState α × (α × AppendEntriesRespMsg) :=
  let r := handleAppendEntries s.toRaftState m now newTimeout
  ({ s with toRaftState := r.1 }, r.2)

/-- States visited while a replica handles a list of `request_vote`
messages (each paired with its `time.time()` and `random.uniform(1, 2)`
draws), starting state included. -/
def rvTrace {α : Type} [DecidableEq α] (s : RaftState α FileOp) :
    List (RequestVoteMsg α × ℚ × ℚ) → List (RaftState α FileOp)
  | [] => [s]
  | (m, now, tnew) :: rest =>
      s :: rvTrace (handleRequestVote s m now tnew).1 rest

/-! ## Cluster-level step system

The replica set of `main.py`: `n` replicas, each peered with all others,
exchanging messages through the `NetworkManager`.  One step is one atomic
handler execution (handlers run under the per-replica lock), one election
timeout firing, one heartbeat round, or — in the *full* system — one
external `become_leader` call.  In-flight messages are a list of
`(recipient, message)` pairs; delivery picks any in-flight message (a
sound abstraction of the per-recipient mailboxes under arbitrary thread
interleavings).

`gvote` is a verification-only ghost history variable: `gvote p T` records
the first candidate to whom replica `p` issued a countable vote at term
`T` (a granted `vote_response` whose stale response term equals `T`, or
`p`'s self-vote when starting an election for term `T`).  No handler reads
it, so the real components evolve exactly as the handlers dictate. -/

structure Cluster (n : Nat) where
  nodes : Fin n → RaftState (Fin n) FileOp
  network : List (Fin n × RaftMsg (Fin n) FileOp)
  gvote : Fin n → Nat → Option (Fin n)

/-- The replica set as `main.py` builds it: every replica starts as the
`initRaft` follower, peered with all other ids; the network is empty.
`timeout0`/`now0` are the per-replica initial clock draws. -/
def initCluster (n : Nat) (timeout0 now0 : Fin n → ℚ) : Cluster n where
  nodes := fun r =>
    initRaft r ((List.finRange n).filter (fun p => p ≠ r)) (timeout0 r) (now0 r)
  network := []
  gvote := fun _ _ => none

/-- Election-timer step of replica `r` (`run_election_timer` +
`start_election`): broadcast `request_vote`; ghost-record the self-vote. -/
def electionStep {n : Nat} (c : Cluster n) (r : Fin n) (now tnew : ℚ) :
    Cluster n :=
  let s := c.nodes r
  let res := startElection s now tnew
  { nodes := Function.update c.nodes r res.1
    network := c.network ++ res.2.map (fun pm => (pm.1, RaftMsg.requestVote pm.2))
    gvote := fun p T =>
      if p = r ∧ T = s.currentTerm + 1 then some r else c.gvote p T }

/-- Delivery of one in-flight message to replica `r`: run the registered
handler, enqueue its response.  `rest` is the network without the
delivered message.  The ghost records an equal-term granted vote
(`m.term = currentTerm` at handling time is exactly the case in which the
response's stale term equals the candidate's election term and can later
be counted), first write only. -/
def deliverStep {n : Nat} (c : Cluster n) (r : Fin n)
    (msg : RaftMsg (Fin n) FileOp)
    (rest : List (Fin n × RaftMsg (Fin n) FileOp)) (now tnew : ℚ) :
    Cluster n :=
  match msg with
  | .requestVote m =>
      let res := handleRequestVote (c.nodes r) m now tnew
      { nodes := Function.update c.nodes r res.1
        network := rest ++ [(res.2.1, RaftMsg.voteResponse res.2.2)]
        gvote := fun p T =>
          if res.2.2.voteGranted = true ∧ m.term = (c.nodes r).currentTerm ∧
              p = r ∧ T = (c.nodes r).currentTerm ∧ c.gvote r T = none then
            some m.candidateId
          else c.gvote p T }
  | .voteResponse m =>
      { nodes := Function.update c.nodes r (handleVoteResponse (c.nodes r) m)
        network := rest
        gvote := c.gvote }
  | .appendEntries m =>
      let res := handleAppendEntries (c.nodes r) m now tnew
      { nodes := Function.update c.nodes r res.1
        network := rest ++ [(res.2.1, RaftMsg.appendEntriesResponse res.2.2)]
        gvote := c.gvote }
  | .appendEntriesResponse m =>
      { nodes := Function.update c.nodes r (handleAppendEntriesResponse (c.nodes r) m)
        network := rest
        gvote := c.gvote }

/-- One heartbeat round of a leader (`send_heartbeats` loop body). -/
def heartbeatStep {n : Nat} (c : Cluster n) (r : Fin n) : Cluster n :=
  { c with network := c.network ++
      (sendHeartbeats (c.nodes r)).map (fun pm => (pm.1, RaftMsg.appendEntries pm.2)) }

/-- External `become_leader` call on replica `r` (the harness'
initialization hook). -/
def becomeLeaderStep {n : Nat} (c : Cluster n) (r : Fin n) : Cluster n :=
  { c with nodes := Function.update c.nodes r (becomeLeader (c.nodes r)) }

/-- Steps of the replica set: elections, message handling (vote handling
and append-entries handling included), heartbeats. -/
inductive Step {n : Nat} : Cluster n → Cluster n → Prop where
  | timeout (c : Cluster n) (r : Fin n) (now tnew : ℚ) :
      ((c.nodes r).state = Role.follower ∨ (c.nodes r).state = Role.candidate) →
      Step c (electionStep c r now tnew)
  | deliver (c : Cluster n) (r : Fin n) (msg : RaftMsg (Fin n) FileOp)
      (l1 l2 : List (Fin n × RaftMsg (Fin n) FileOp)) (now tnew : ℚ) :
      c.network = l1 ++ (r, msg) :: l2 →
      Step c (deliverStep c r msg (l1 ++ l2) now tnew)
  | heartbeat (c : Cluster n) (r : Fin n) :
      (c.nodes r).state = Role.leader →
      Step c (heartbeatStep c r)

/-- Steps of the replica set including the external `become_leader`
hook, as listed by the claim. -/
inductive StepFull {n : Nat} : Cluster n → Cluster n → Prop where
  | core {c c' : Cluster n} : Step c c' → StepFull c c'
  | become (c : Cluster n) (r : Fin n) : StepFull c (becomeLeaderStep c r)

/-- Reachability from some initial replica set, with `become_leader`
among the steps. -/
def ReachableFull {n : Nat} (c : Cluster n) : Prop :=
  ∃ timeout0 now0 : Fin n → ℚ,
    Relation.ReflTransGen StepFull (initCluster n timeout0 now0) c

/-- Reachability from some initial replica set through elections, vote
handling, append-entries handling and heartbeats only. -/
def ReachableCore {n : Nat} (c : Cluster n) : Prop :=
  ∃ timeout0 now0 : Fin n → ℚ,
    Relation.ReflTransGen Step (initCluster n timeout0 now0) c

/-- The at-most-one-leader-per-term property: any two replicas that are
simultaneously leaders in the same term coincide. -/
def oneLeaderPerTerm {n : Nat} (c : Cluster n) : Prop :=
  ∀ r1 r2 : Fin n, (c.nodes r1).state = Role.leader →
    (c.nodes r2).state = Role.leader →
    (c.nodes r1).currentTerm = (c.nodes r2).currentTerm → r1 = r2

/-- `x` can no longer have votes counted toward a candidacy at term `T`:
its term has moved past `T`, or it sits at `T` in a non-candidate role
(it can only become candidate again at a strictly larger term). -/
def cannotCount {n : Nat} (c : Cluster n) (x : Fin n) (T : Nat) : Prop :=
  T < (c.nodes x).currentTerm ∨
    ((c.nodes x).currentTerm = T ∧ (c.nodes x).state ≠ Role.candidate)

/-- Ghost supporters of candidate `x` at term `T`. -/
def supp {n : Nat} (c : Cluster n) (T : Nat) (x : Fin n) : Finset (Fin n) :=
  Finset.univ.filter (fun p => c.gvote p T = some x)

/-- In-flight granted `vote_response` addressed to `x` carrying term `T`. -/
def isGrantedVR {n : Nat} (x : Fin n) (T : Nat) :
    (Fin n × RaftMsg (Fin n) FileOp) → Bool :=
  fun dm =>
    match dm.2 with
    | .voteResponse m => dm.1 = x ∧ m.term = T ∧ m.voteGranted = true
    | _ => false

/-- Number of countable in-flight vote responses for `x` at term `T`. -/
def cntVR {n : Nat} (c : Cluster n) (x : Fin n) (T : Nat) : Nat :=
  c.network.countP (isGrantedVR x T)

/-- In-flight `request_vote` with term `T` from candidate `x` to `p`. -/
def isRV {n : Nat} (T : Nat) (x p : Fin n) :
    (Fin n × RaftMsg (Fin n) FileOp) → Bool :=
  fun dm =>
    match dm.2 with
    | .requestVote m => dm.1 = p ∧ m.term = T ∧ m.candidateId = x
    | _ => false

/-- The inductive invariant of the core step system.  Clause guide:
well-formedness of the static fields; term bounds tying ghost entries and
in-flight messages to replica terms; uniqueness of a term's request
batch; the candidate's self-vote; single-vote discipline (`ghostVoted`);
soundness of in-flight append-entries and granted responses; the vote
count bound; and the leader majority bound. -/
structure Inv {n : Nat} (c : Cluster n) : Prop where
  wfPeers : ∀ r : Fin n,
    (c.nodes r).peers = (List.finRange n).filter (fun p => p ≠ r)
  wfId : ∀ r : Fin n, (c.nodes r).serverId = r
  ghostTermSelf : ∀ (p : Fin n) (T : Nat),
    c.gvote p T ≠ none → T ≤ (c.nodes p).currentTerm
  ghostTermCand : ∀ (p x : Fin n) (T : Nat),
    c.gvote p T = some x → T ≤ (c.nodes x).currentTerm
  rvBound : ∀ dm ∈ c.network, ∀ m : RequestVoteMsg (Fin n),
    dm.2 = RaftMsg.requestVote m →
    m.term ≤ (c.nodes m.candidateId).currentTerm ∧ m.candidateId ≠ dm.1
  rvGhost : ∀ dm ∈ c.network, ∀ m : RequestVoteMsg (Fin n),
    dm.2 = RaftMsg.requestVote m → c.gvote dm.1 m.term ≠ some m.candidateId
  rvUnique : ∀ (T : Nat) (x p : Fin n), c.network.countP (isRV T x p) ≤ 1
  vrBound : ∀ dm ∈ c.network, ∀ m : VoteResponseMsg (Fin n),
    dm.2 = RaftMsg.voteResponse m → m.voteGranted = true →
    m.term ≤ (c.nodes dm.1).currentTerm
  aeBound : ∀ dm ∈ c.network, ∀ m : AppendEntriesMsg (Fin n) FileOp,
    dm.2 = RaftMsg.appendEntries m → cannotCount c m.leaderId m.term
  votedSelf : ∀ r : Fin n, (c.nodes r).state = Role.candidate →
    (c.nodes r).votedFor = some r ∧
      c.gvote r (c.nodes r).currentTerm = some r
  ghostVoted : ∀ (p x : Fin n),
    c.gvote p (c.nodes p).currentTerm = some x →
    ∃ v : Fin n, (c.nodes p).votedFor = some v ∧
      (v = x ∨ cannotCount c v (c.nodes p).currentTerm)
  candCount : ∀ r : Fin n, (c.nodes r).state = Role.candidate →
    (c.nodes r).votesReceived + cntVR c r (c.nodes r).currentTerm ≤
      (supp c (c.nodes r).currentTerm r).card
  leaderMaj : ∀ r : Fin n, (c.nodes r).state = Role.leader →
    n / 2 + 1 ≤ (supp c (c.nodes r).currentTerm r).card

/-! ## Concrete states used by individual counterexamples and witnesses -/

/-- A replica at term 1 that has not voted (as after observing term 1
through a stale vote response): used for the voting-rule counterexample. -/
def exVoter : RaftState String FileOp :=
  { initRaft "s1" ["s2", "s3"] 1 0 with currentTerm := 1 }

/-- A term-1 `request_vote` from `s2`. -/
def exRV1 : RequestVoteMsg String :=
  { term := 1, candidateId := "s2", lastLogIndex := 0, lastLogTerm := 0,
    sourceId := "s2" }

/-- A fresh follower `s3`, used for the vote-overwrite counterexample. -/
def exFresh : RaftState String FileOp := initRaft "s3" ["s1", "s2"] 1 0

/-- A term-1 `request_vote` from candidate `s1`. -/
def exRVfromS1 : RequestVoteMsg String :=
  { term := 1, candidateId := "s1", lastLogIndex := 0, lastLogTerm := 0,
    sourceId := "s1" }

/-- A term-1 heartbeat from a replica `s2` asserting leadership. -/
def exAEfromS2 : AppendEntriesMsg String FileOp :=
  { term := 1, leaderId := "s2", prevLogIndex := -1, prevLogTerm := 0,
    entries := [], leaderCommit := 0 }

/-- A leader at term 2. -/
def exLeader : RaftState String FileOp :=
  { initRaft "s1" ["s2", "s3"] 1 0 with
      state := .leader
      currentTerm := 2
      leaderId := some "s1" }

/-- A vote response carrying term 5, above `exLeader`'s term. -/
def exVR5 : VoteResponseMsg String :=
  { term := 5, voteGranted := false, sourceId := "s2" }

/-- A candidate at term 3 with one vote (its own) in a three-replica
cluster. -/
def exCandidate : RaftState String FileOp :=
  { initRaft "s1" ["s2", "s3"] 1 0 with
      state := .candidate
      currentTerm := 3
      votedFor := some "s1"
      votesReceived := 1 }

/-- A granted term-3 vote response from `s2`. -/
def exVR3 : VoteResponseMsg String :=
  { term := 3, voteGranted := true, sourceId := "s2" }

/-- A freshly initialised follower file server `s2`. -/
def exFS : FSState String := initFileServer "s2" ["s1", "s3"] "D:" 1 0

/-- A leader file server `s1` with an empty file map. -/
def exFSLeader : FSState String :=
  { initFileServer "s1" ["s2", "s3"] "D:" 1 0 with
      state := .leader
      leaderId := some "s1" }

/-- A follower file server that knows a leader (as during normal operation
after receiving a heartbeat). -/
def exFSKnowsLeader : FSState String :=
  { initFileServer "s2" ["s1", "s3"] "D:" 1 0 with leaderId := some "s1" }

/-- The shared state visible after a thread of the follower `exFS` called
`create_file "t.txt"` at time 2: the map holds the file, while the
creator thread itself is blocked in `save_file`. -/
def exFSWithFile : FSState String := (createFile exFS "t.txt" 2).st

/-- `exFSWithFile` after granting a lease on `"t.txt"` to `"X"` at time 5
for 10 time units (expiry 15). -/
def exFSLeased : FSState String :=
  (handleRequestLease exFSWithFile "t.txt" 10 "X" 5).1

/-- The three-replica set with two replicas pushed through the external
`become_leader` hook. -/
def exTwoBecomeLeaders : Cluster 3 :=
  becomeLeaderStep
    (becomeLeaderStep (initCluster 3 (fun _ => 1) (fun _ => 0)) 0) 1

/-! ## Association-list lemmas -/

theorem alookup_ainsert_self {β : Type} (l : List (String × β)) (k : String)
    (v : β) : alookup (ainsert l k v) k = some v := by
  unfold ainsert
  by_cases h : (l.find? (fun p => p.1 == k)).isSome
  · simp only [h, if_true]
    induction l with
    | nil => simp at h
    | cons hd tl ih =>
        by_cases hk : hd.1 = k
        · simp [alookup, List.find?_cons, hk]
        · have hk' : (hd.1 == k) = false := by simpa using hk
          simp only [List.find?_cons, hk', Bool.false_eq_true, if_false] at h
          simp only [List.map_cons, beq_iff_eq, if_neg hk]
          simpa [alookup, List.find?_cons, hk'] using ih h
  · simp only [h, if_false]
    induction l with
    | nil => simp [alookup]
    | cons hd tl ih =>
        by_cases hk : hd.1 = k
        · exact absurd (by simp [List.find?_cons, hk]) h
        · have hk' : (hd.1 == k) = false := by simpa using hk
          simp only [List.find?_cons, hk', Bool.false_eq_true, if_false] at h
          simpa [alookup, List.find?_cons, hk'] using ih h

theorem alookup_aerase_self {β : Type} (l : List (String × β)) (k : String) :
    alookup (aerase l k) k = none := by
  induction l with
  | nil => simp [aerase, alookup]
  | cons hd tl ih =>
      by_cases hk : hd.1 == k
      · simpa [aerase, bne, hk] using ih
      · simpa [aerase, alookup, bne, hk, List.find?_cons] using ih

/-! ## Field-preservation lemmas for the file-server operations -/

theorem createFile_st_clientId {α : Type} [DecidableEq α] (s : FSState α)
    (fn : String) (now : ℚ) :
    (createFile s fn now).st.clientId = s.clientId := by
  unfold createFile
  split <;> rfl

theorem deleteFile_st_clientId {α : Type} [DecidableEq α] (s : FSState α)
    (fn : String) :
    (deleteFile s fn).st.clientId = s.clientId := by
  unfold deleteFile
  split
  · dsimp only
    split <;> rfl
  · rfl

theorem writeFile_st_clientId {α : Type} [DecidableEq α] (s : FSState α)
    (fn content : String) (now : ℚ) :
    (writeFile s fn content now).st.clientId = s.clientId := by
  unfold writeFile
  split
  · split
    · split <;> rfl
    · rfl
  · split <;> rfl

theorem handleCreateFile_st_clientId {α : Type} [DecidableEq α]
    (s : FSState α) (fn : String) (cid : α) (now : ℚ) :
    (handleCreateFile s fn cid now).st.clientId = s.clientId := by
  have h0 := createFile_st_clientId s fn now
  unfold handleCreateFile
  cases hc : createFile s fn now with
  | ret s1 v =>
      rw [hc] at h0
      exact h0
  | raised s1 e =>
      rw [hc] at h0
      exact h0
  | blocked s1 =>
      rw [hc] at h0
      exact h0

theorem handleDeleteFile_st_clientId {α : Type} [DecidableEq α]
    (s : FSState α) (fn : String) (cid : α) :
    (handleDeleteFile s fn cid).st.clientId = s.clientId := by
  have h0 := deleteFile_st_clientId s fn
  unfold handleDeleteFile
  cases hc : deleteFile s fn with
  | ret s1 v =>
      rw [hc] at h0
      exact h0
  | raised s1 e =>
      rw [hc] at h0
      exact h0
  | blocked s1 =>
      rw [hc] at h0
      exact h0

theorem handleWriteFile_st_clientId {α : Type} [DecidableEq α]
    (s : FSState α) (fn content : String) (cid : α) (now : ℚ) :
    (handleWriteFile s fn content cid now).st.clientId = s.clientId := by
  unfold handleWriteFile
  split
  · split <;> rfl
  · have h0 := writeFile_st_clientId s fn content now
    cases hw : writeFile s fn content now with
    | ret s1 v =>
        rw [hw] at h0
        exact h0
    | raised s1 e =>
        rw [hw] at h0
        exact h0
    | blocked s1 =>
        rw [hw] at h0
        exact h0

/-! ## Claim C2 -/

/-- C2 counterexample: a freshly initialised *follower* file server that
handles `create_file` of a new name forwards nothing — it inserts the
file into its *local* map and then hangs forever inside `save_file`'s
re-acquisition of the non-reentrant lock, never replying; and a follower
holding the file that handles `delete_file` applies the deletion locally
and replies `success=true` straight to the client.  Both contradict the
claimed forward-to-leader discipline for non-leaders. -/
theorem C2_counterexample :
    exFS.state = Role.follower ∧
    (∃ s1, handleCreateFile exFS "test.txt" "client1" 2 =
        CallRes.blocked s1 ∧
      (alookup s1.files "test.txt").isSome = true) ∧
    exFSWithFile.state = Role.follower ∧
    handleDeleteFile exFSWithFile "t.txt" "client1" =
      CallRes.ret
        { exFSWithFile with
            files := aerase exFSWithFile.files "t.txt"
            storage := aerase exFSWithFile.storage "t.txt" }
        [("client1", FileMsg.deleteFileResponse true)] :=
  ⟨rfl, ⟨_, rfl, rfl⟩, rfl, rfl⟩

/-- C2 (amended): `handle_create_file` and `handle_delete_file` never
forward and ignore the replica's role.  Create of an existing name and
delete of an absent name make the handler reply `success=false` straight
to the client; a *non-leader*'s delete of a present name applies the
deletion locally (map and storage) and replies `success=true`.  Create of
a new name mutates the local file map and then self-deadlocks inside
`save_file`'s re-acquisition of the non-reentrant lock, so the handler
never replies; a *leader*'s delete of a present name likewise deadlocks
inside `replicate_log` after applying the deletion. -/
theorem C2_amended {α : Type} [DecidableEq α] (s : FSState α) (fn : String)
    (cid : α) (now : ℚ) :
    (alookup s.files fn ≠ none →
      handleCreateFile s fn cid now =
        CallRes.ret s [(cid, FileMsg.createFileResponse false)]) ∧
    (alookup s.files fn = none →
      handleCreateFile s fn cid now =
        CallRes.blocked { s with
          files := ainsert s.files fn
            (({ filename := fn, ownerServerId := s.serverId, versions := [],
                lease := none } : File α).addVersion "" now) }) ∧
    (alookup s.files fn = none →
      handleDeleteFile s fn cid =
        CallRes.ret s [(cid, FileMsg.deleteFileResponse false)]) ∧
    ((alookup s.files fn).isSome = true → s.state ≠ Role.leader →
      handleDeleteFile s fn cid =
        CallRes.ret
          { s with files := aerase s.files fn
                   storage := aerase s.storage fn }
          [(cid, FileMsg.deleteFileResponse true)]) ∧
    ((alookup s.files fn).isSome = true → s.state = Role.leader →
      handleDeleteFile s fn cid =
        CallRes.blocked
          { s with files := aerase s.files fn
                   storage := aerase s.storage fn }) := by
  refine ⟨?_, ?_, ?_, ?_, ?_⟩
  · intro h
    unfold handleCreateFile createFile
    rw [if_neg h]
  · intro h
    unfold handleCreateFile createFile
    rw [if_pos h]
  · intro h
    unfold handleDeleteFile deleteFile
    have hns : ¬((alookup s.files fn).isSome = true) := by
      rw [h]
      simp
    rw [if_neg hns]
  · intro h hnl
    unfold handleDeleteFile deleteFile
    rw [if_pos h]
    dsimp only
    rw [if_neg (fun hx => hnl hx)]
  · intro h hl
    unfold handleDeleteFile deleteFile
    rw [if_pos h]
    dsimp only
    rw [if_pos hl]

/-- C2 witness: the amended characterisation applied at a follower that
holds `"t.txt"`: the delete is applied locally and acknowledged straight
to the client. -/
theorem C2_amended_witness :
    handleDeleteFile exFSWithFile "t.txt" "c9" =
      CallRes.ret
        { exFSWithFile with
            files := aerase exFSWithFile.files "t.txt"
            storage := aerase exFSWithFile.storage "t.txt" }
        [("c9", FileMsg.deleteFileResponse true)] :=
  (C2_amended exFSWithFile "t.txt" "c9" 0).2.2.2.1 (by decide) (by decide)

/-! ## Claim C3 -/

/-- C3 counterexample: a *leader* with an empty file map handling
`write_file` for an absent filename leaves its state unchanged but *does*
send `write_file_response{success=true}` to the client — the claim's
"sends no response" is false.  (This path nests no lock: `write_file`
only logs and returns.) -/
theorem C3_counterexample :
    exFSLeader.state = Role.leader ∧
    alookup exFSLeader.files "missing.txt" = none ∧
    handleWriteFile exFSLeader "missing.txt" "hi" "client1" 2 =
      CallRes.ret exFSLeader
        [("client1", FileMsg.writeFileResponse true)] := by
  refine ⟨rfl, rfl, rfl⟩

/-- C3 (amended): a leader handling `write_file` for an absent filename
leaves the file map, log and persisted state unchanged (the whole state,
in fact) and sends `write_file_response{success=true}` to the client — a
spurious success acknowledgment rather than the claimed silence. -/
theorem C3_amended {α : Type} [DecidableEq α] (s : FSState α)
    (fn content : String) (cid : α) (now : ℚ)
    (hl : s.state = Role.leader) (hf : alookup s.files fn = none) :
    handleWriteFile s fn content cid now =
      CallRes.ret s [(cid, FileMsg.writeFileResponse true)] := by
  unfold handleWriteFile writeFile
  simp [hl, hf]

/-- C3 witness: the amended statement applied at an explicit leader with
an empty map. -/
theorem C3_amended_witness :
    handleWriteFile exFSLeader "absent.txt" "data" "client2" 3 =
      CallRes.ret exFSLeader
        [("client2", FileMsg.writeFileResponse true)] :=
  C3_amended exFSLeader "absent.txt" "data" "client2" 3 rfl rfl

/-! ## Claim C9 -/

/-- C9: `handle_request_lease` grants exactly when the file exists and its
lease is absent or expired (`now > expiry`); a grant installs
`(lessee, now + duration)`; and while an unexpired lease is present the
request is denied and the state unchanged. -/
theorem C9_lease_grant_iff {α : Type} [DecidableEq α] (s : FSState α)
    (fn : String) (dur : ℚ) (lessee : α) (now : ℚ) :
    ((handleRequestLease s fn dur lessee now).2 = true ↔
      ∃ f, alookup s.files fn = some f ∧
        (f.lease = none ∨ ∃ l, f.lease = some l ∧ now > l.expiryTime)) ∧
    ((handleRequestLease s fn dur lessee now).2 = true →
      ∃ f, alookup (handleRequestLease s fn dur lessee now).1.files fn =
          some f ∧
        f.lease = some { lessee := lessee, expiryTime := now + dur }) ∧
    (∀ f l, alookup s.files fn = some f → f.lease = some l →
      ¬(now > l.expiryTime) →
      handleRequestLease s fn dur lessee now = (s, false)) := by
  cases hf : alookup s.files fn with
  | none =>
      have hres : handleRequestLease s fn dur lessee now = (s, false) := by
        unfold handleRequestLease
        rw [hf]
      rw [hres]
      refine ⟨by simp, by simp, fun _ _ _ _ _ => rfl⟩
  | some f =>
      have hgrant : (match f.lease with
            | none => true
            | some l => l.isExpired now) = true →
          handleRequestLease s fn dur lessee now =
            ({ s with files := ainsert s.files fn { f with lease := some { lessee := lessee, expiryTime := now + dur } } }, true) := by
        intro hfree
        unfold handleRequestLease
        rw [hf]
        dsimp only
        rw [hfree, if_pos rfl]
      cases hl : f.lease with
      | none =>
          have hres := hgrant (by rw [hl])
          rw [hres]
          refine ⟨⟨fun _ => ⟨f, rfl, Or.inl hl⟩, fun _ => rfl⟩, ?_, ?_⟩
          · intro _
            exact ⟨_, alookup_ainsert_self .., rfl⟩
          · intro f' l' hf' hl' _
            obtain rfl := Option.some_inj.mp hf'
            rw [hl] at hl'
            cases hl'
      | some l =>
          by_cases he : now > l.expiryTime
          · have hres := hgrant (by rw [hl]; simp [Lease.isExpired, he])
            rw [hres]
            refine ⟨⟨fun _ => ⟨f, rfl, Or.inr ⟨l, hl, he⟩⟩, fun _ => rfl⟩,
              ?_, ?_⟩
            · intro _
              exact ⟨_, alookup_ainsert_self .., rfl⟩
            · intro f' l' hf' hl' he'
              obtain rfl := Option.some_inj.mp hf'
              rw [hl] at hl'
              obtain rfl := Option.some_inj.mp hl'
              exact absurd he he'
          · have hres : handleRequestLease s fn dur lessee now = (s, false) := by
              unfold handleRequestLease
              rw [hf]
              dsimp only
              rw [hl]
              simp [Lease.isExpired, he]
            rw [hres]
            refine ⟨?_, by simp, fun _ _ _ _ _ => rfl⟩
            constructor
            · intro hfalse; cases hfalse
            · rintro ⟨f', hf', hcase | ⟨l', hl', he'⟩⟩
              · obtain rfl := Option.some_inj.mp hf'
                rw [hl] at hcase
                cases hcase
              · obtain rfl := Option.some_inj.mp hf'
                rw [hl] at hl'
                obtain rfl := Option.some_inj.mp hl'
                exact absurd he' he

/-! ## Claim C10 -/

/-- C10: the attribute `self.client_id` is never assigned
(`initFileServer` leaves it absent and every operation preserves that),
so a direct `write_file` call on a non-leader that knows a leader reaches
the forwarding branch and raises `AttributeError`, delivering no
message. -/
theorem C10_writeFile_attributeError {α : Type} [DecidableEq α]
    (s : FSState α) (fn content : String) (now : ℚ)
    (hns : s.state ≠ Role.leader) (hld : s.leaderId.isSome = true)
    (hcid : s.clientId = none) :
    writeFile s fn content now =
      CallRes.raised s PyError.attributeError ∧
    (∀ (sid : α) (peers : List α) (dir : String) (t0 n0 : ℚ),
      (initFileServer sid peers dir t0 n0).clientId = none) ∧
    (∀ (s' : FSState α) (fn' content' : String) (cid : α) (now' dur : ℚ),
      (handleCreateFile s' fn' cid now').st.clientId = s'.clientId ∧
      (handleDeleteFile s' fn' cid).st.clientId = s'.clientId ∧
      (handleWriteFile s' fn' content' cid now').st.clientId = s'.clientId ∧
      (handleRequestLease s' fn' dur cid now').1.clientId = s'.clientId) := by
  refine ⟨?_, fun _ _ _ _ _ => rfl, ?_⟩
  · unfold writeFile
    rw [if_pos hns]
    obtain ⟨l, hl⟩ := Option.isSome_iff_exists.mp hld
    rw [hl, hcid]
  · intro s' fn' content' cid now' dur
    refine ⟨handleCreateFile_st_clientId .., handleDeleteFile_st_clientId ..,
      handleWriteFile_st_clientId .., ?_⟩
    unfold handleRequestLease
    split
    · dsimp only
      split <;> rfl
    · rfl

/-- C10 witness: the theorem applied to a follower that knows the leader
`s1`. -/
theorem C10_witness :
    writeFile exFSKnowsLeader "f" "c" 3 =
      CallRes.raised exFSKnowsLeader PyError.attributeError :=
  (C10_writeFile_attributeError exFSKnowsLeader "f" "c" 3
    (by decide) (by decide) rfl).1

/-! ## Request-vote handler lemmas -/

theorem hrv_term_mono {α ε : Type} [DecidableEq α] (s : RaftState α ε)
    (m : RequestVoteMsg α) (now tnew : ℚ) :
    s.currentTerm ≤ (handleRequestVote s m now tnew).1.currentTerm := by
  unfold handleRequestVote
  dsimp only
  by_cases h1 : m.term > s.currentTerm
  · rw [if_pos h1]
    split <;> dsimp only <;> omega
  · rw [if_neg h1]
    split
    · rename_i h2
      dsimp only
      exact h2.2
    · exact le_refl _

theorem hrv_vote_keep {α ε : Type} [DecidableEq α] (s : RaftState α ε)
    (m : RequestVoteMsg α) (now tnew : ℚ) (a : α)
    (hterm : (handleRequestVote s m now tnew).1.currentTerm = s.currentTerm)
    (hv : s.votedFor = some a) :
    (handleRequestVote s m now tnew).1.votedFor = some a := by
  unfold handleRequestVote at hterm ⊢
  dsimp only at hterm ⊢
  by_cases h1 : m.term > s.currentTerm
  · rw [if_pos h1] at hterm ⊢
    rw [if_pos ⟨Or.inl rfl, le_refl _⟩] at hterm
    dsimp only at hterm
    omega
  · rw [if_neg h1] at hterm ⊢
    split
    · rename_i h2
      dsimp only
      rcases h2.1 with hnone | hcand
      · rw [hv] at hnone; cases hnone
      · rw [hv] at hcand
        rw [← hcand]
    · exact hv

theorem rvTrace_term_mono {α : Type} [DecidableEq α]
    (s : RaftState α FileOp) (inputs : List (RequestVoteMsg α × ℚ × ℚ)) :
    ∀ st ∈ rvTrace s inputs, s.currentTerm ≤ st.currentTerm := by
  induction inputs generalizing s with
  | nil =>
      intro st hst
      simp only [rvTrace, List.mem_singleton] at hst
      subst hst
      exact le_refl _
  | cons i rest ih =>
      obtain ⟨m, now, tnew⟩ := i
      intro st hst
      simp only [rvTrace, List.mem_cons] at hst
      rcases hst with rfl | hst
      · exact le_refl _
      · exact le_trans (hrv_term_mono s m now tnew) (ih _ st hst)

theorem rvTrace_vote_keep {α : Type} [DecidableEq α]
    (s : RaftState α FileOp) (inputs : List (RequestVoteMsg α × ℚ × ℚ))
    (a : α) (hv : s.votedFor = some a) :
    ∀ st ∈ rvTrace s inputs, st.currentTerm = s.currentTerm →
      st.votedFor = some a := by
  induction inputs generalizing s with
  | nil =>
      intro st hst _
      simp only [rvTrace, List.mem_singleton] at hst
      subst hst
      exact hv
  | cons i rest ih =>
      obtain ⟨m, now, tnew⟩ := i
      intro st hst hterm
      simp only [rvTrace, List.mem_cons] at hst
      rcases hst with rfl | hst
      · exact hv
      · by_cases hkeep :
          (handleRequestVote s m now tnew).1.currentTerm = s.currentTerm
        · exact ih _ (hrv_vote_keep s m now tnew a hkeep hv) st hst
            (by rw [hterm, hkeep])
        · have h1 := hrv_term_mono s m now tnew
          have h2 := rvTrace_term_mono (handleRequestVote s m now tnew).1
            rest st hst
          omega

theorem rvTrace_head_tail {α : Type} [DecidableEq α]
    (s : RaftState α FileOp) (m : RequestVoteMsg α) (now tnew : ℚ)
    (rest : List (RequestVoteMsg α × ℚ × ℚ)) (T : Nat) (a b : α)
    (hT : s.currentTerm = T) (hva : s.votedFor = some a)
    (hb : ∃ st ∈ rvTrace (handleRequestVote s m now tnew).1 rest,
      st.currentTerm = T ∧ st.votedFor = some b) :
    a = b := by
  obtain ⟨st, hst, hT', hvb⟩ := hb
  by_cases hkeep : (handleRequestVote s m now tnew).1.currentTerm =
      s.currentTerm
  · have hstv := rvTrace_vote_keep (handleRequestVote s m now tnew).1 rest a
      (hrv_vote_keep s m now tnew a hkeep hva) st hst
      (by rw [hT', hkeep, hT])
    rw [hstv] at hvb
    exact Option.some_inj.mp hvb
  · have h1 := hrv_term_mono s m now tnew
    have h2 := rvTrace_term_mono (handleRequestVote s m now tnew).1 rest st hst
    omega

/-! ## Claim C4 -/

/-- C4 counterexample: a replica at term 1 with no recorded vote grants a
term-1 `request_vote` (equal term), but its `last_heartbeat` and
`election_timeout` stay untouched (they would have become 7 and 9 had the
reset run) — the election timeout is *not* reset on this grant. -/
theorem C4_counterexample :
    (handleRequestVote exVoter exRV1 7 9).2.2.voteGranted = true ∧
    (handleRequestVote exVoter exRV1 7 9).1.votedFor = some "s2" ∧
    (handleRequestVote exVoter exRV1 7 9).1.lastHeartbeat = 0 ∧
    (handleRequestVote exVoter exRV1 7 9).1.electionTimeout = 1 ∧
    exVoter.lastHeartbeat = 0 ∧ exVoter.electionTimeout = 1 ∧
    (7 : ℚ) ≠ 0 ∧ (9 : ℚ) ≠ 1 := by
  refine ⟨rfl, rfl, rfl, rfl, rfl, rfl, by decide, by decide⟩

/-- C4 (amended): the grant condition is exactly as claimed (evaluated
after adopting a strictly higher term), and a grant records the vote and
adopts the term; but the election timeout (`last_heartbeat` and a fresh
randomized timeout) is reset exactly when the message term is *strictly*
higher than `current_term` — not on every grant. -/
theorem C4_amended {α : Type} [DecidableEq α] (s : RaftState α FileOp)
    (m : RequestVoteMsg α) (now tnew : ℚ) :
    ((handleRequestVote s m now tnew).2.2.voteGranted = true ↔
      (s.currentTerm ≤ m.term ∧
        (s.currentTerm < m.term ∨ s.votedFor = none ∨
          s.votedFor = some m.candidateId))) ∧
    ((handleRequestVote s m now tnew).2.2.voteGranted = true →
      (handleRequestVote s m now tnew).1.currentTerm = m.term ∧
      (handleRequestVote s m now tnew).1.votedFor = some m.candidateId) ∧
    (handleRequestVote s m now tnew).1.lastHeartbeat =
      (if s.currentTerm < m.term then now else s.lastHeartbeat) ∧
    (handleRequestVote s m now tnew).1.electionTimeout =
      (if s.currentTerm < m.term then tnew else s.electionTimeout) := by
  unfold handleRequestVote
  dsimp only
  by_cases h1 : m.term > s.currentTerm
  · rw [if_pos h1, if_pos ⟨Or.inl rfl, le_refl _⟩]
    dsimp only
    exact ⟨⟨fun _ => ⟨le_of_lt h1, Or.inl h1⟩, fun _ => rfl⟩,
      fun _ => ⟨rfl, rfl⟩, by rw [if_pos h1], by rw [if_pos h1]⟩
  · rw [if_neg h1]
    by_cases h2 : (s.votedFor = none ∨ s.votedFor = some m.candidateId) ∧
        m.term ≥ s.currentTerm
    · rw [if_pos h2]
      dsimp only
      exact ⟨⟨fun _ => ⟨h2.2, Or.inr h2.1⟩, fun _ => rfl⟩,
        fun _ => ⟨rfl, rfl⟩, by rw [if_neg h1], by rw [if_neg h1]⟩
    · rw [if_neg h2]
      dsimp only
      refine ⟨?_, ?_, by rw [if_neg h1], by rw [if_neg h1]⟩
      · constructor
        · intro hfalse
          exact absurd hfalse (by decide)
        · rintro ⟨hle, hlt | hv⟩
          · exact absurd hlt h1
          · exact absurd ⟨hv, hle⟩ h2
      · intro hfalse
        exact absurd hfalse (by decide)

/-! ## Claim C5 -/

/-- C5 counterexample: a fresh follower grants a term-1 vote to `s1`, then
a term-1 heartbeat from `s2` overwrites `voted_for` with `s2` — two
distinct non-empty `voted_for` values within the same term 1. -/
theorem C5_counterexample :
    (handleRequestVote exFresh exRVfromS1 2 3).1.currentTerm = 1 ∧
    (handleRequestVote exFresh exRVfromS1 2 3).1.votedFor = some "s1" ∧
    (handleAppendEntries (handleRequestVote exFresh exRVfromS1 2 3).1
      exAEfromS2 4 5).1.currentTerm = 1 ∧
    (handleAppendEntries (handleRequestVote exFresh exRVfromS1 2 3).1
      exAEfromS2 4 5).1.votedFor = some "s2" ∧
    ("s1" : String) ≠ "s2" := by
  refine ⟨rfl, rfl, rfl, rfl, by decide⟩

/-- C5 (amended): restricted to `request_vote` handling alone the claim
holds — over any sequence of handled `request_vote` messages, a replica's
`voted_for` takes at most one distinct non-empty value while
`current_term` = T.  (`handle_append_entries` violates the original claim
by overwriting `voted_for` with the heartbeat sender within a term.) -/
theorem C5_amended {α : Type} [DecidableEq α] (s : RaftState α FileOp)
    (inputs : List (RequestVoteMsg α × ℚ × ℚ)) (T : Nat) (a b : α)
    (ha : ∃ st ∈ rvTrace s inputs, st.currentTerm = T ∧ st.votedFor = some a)
    (hb : ∃ st ∈ rvTrace s inputs, st.currentTerm = T ∧ st.votedFor = some b) :
    a = b := by
  induction inputs generalizing s with
  | nil =>
      obtain ⟨st, hst, _, hva⟩ := ha
      obtain ⟨st', hst', _, hvb⟩ := hb
      simp only [rvTrace, List.mem_singleton] at hst hst'
      subst hst; subst hst'
      rw [hva] at hvb
      exact Option.some_inj.mp hvb
  | cons i rest ih =>
      obtain ⟨m, now, tnew⟩ := i
      obtain ⟨st, hst, hT, hva⟩ := ha
      obtain ⟨st', hst', hT', hvb⟩ := hb
      simp only [rvTrace, List.mem_cons] at hst hst'
      rcases hst with hst0 | hst <;> rcases hst' with hst0' | hst'
      · rw [hst0] at hva
        rw [hst0'] at hvb
        rw [hva] at hvb
        exact Option.some_inj.mp hvb
      · rw [hst0] at hT hva
        exact rvTrace_head_tail s m now tnew rest T a b hT hva
          ⟨st', hst', hT', hvb⟩
      · rw [hst0'] at hT' hvb
        exact (rvTrace_head_tail s m now tnew rest T b a hT' hvb
          ⟨st, hst, hT, hva⟩).symm
      · exact ih _ ⟨st, hst, hT, hva⟩ ⟨st', hst', hT', hvb⟩

/-- C5 witness: the amended statement applied to a singleton trace in
which `s1` is the only vote recorded at term 1. -/
theorem C5_amended_witness : ("s1" : String) = "s1" :=
  C5_amended (handleRequestVote exFresh exRVfromS1 2 3).1 [] 1 "s1" "s1"
    ⟨(handleRequestVote exFresh exRVfromS1 2 3).1, by simp [rvTrace], rfl, rfl⟩
    ⟨(handleRequestVote exFresh exRVfromS1 2 3).1, by simp [rvTrace], rfl, rfl⟩

/-! ## Claim C6 -/

/-- C6: a candidate counts a vote response only when its term equals the
candidate's current term and the vote is granted (lower terms ignored,
higher terms demote with `voted_for` cleared); it becomes leader exactly
when the count — seeded at 1 by `start_election`'s self-vote — exceeds
`(len(peers) + 1) // 2` (= n // 2 for cluster size n = |peers| + 1), at
which point it records itself as `leader_id` (heartbeats start then; in
the cluster model the heartbeat step is enabled exactly for leaders). -/
theorem C6_vote_counting {α : Type} [DecidableEq α] (s : RaftState α FileOp)
    (m : VoteResponseMsg α) (now tnew : ℚ) (hc : s.state = Role.candidate) :
    (s.currentTerm < m.term →
      handleVoteResponse s m =
        { s with currentTerm := m.term, state := Role.follower,
                 votedFor := none }) ∧
    (m.term < s.currentTerm → handleVoteResponse s m = s) ∧
    (m.term = s.currentTerm → m.voteGranted = false →
      handleVoteResponse s m = s) ∧
    (m.term = s.currentTerm → m.voteGranted = true →
      (handleVoteResponse s m).votesReceived = s.votesReceived + 1 ∧
      ((handleVoteResponse s m).state = Role.leader ↔
        (s.peers.length + 1) / 2 < s.votesReceived + 1) ∧
      ((s.peers.length + 1) / 2 < s.votesReceived + 1 →
        (handleVoteResponse s m).leaderId = some s.serverId)) ∧
    (startElection s now tnew).1.votesReceived = 1 := by
  have hnc : ¬(s.state ≠ Role.candidate) := by rw [hc]; simp
  unfold handleVoteResponse
  simp only [majorityThreshold]
  rw [if_neg hnc]
  refine ⟨?_, ?_, ?_, ?_, rfl⟩
  · intro hlt
    rw [if_pos hlt]
  · intro hlt
    rw [if_neg (by omega), if_pos hlt]
  · intro heq hng
    rw [if_neg (by omega), if_neg (by omega), hng]
    simp
  · intro heq hg
    rw [if_neg (by omega), if_neg (by omega), hg]
    rw [if_pos rfl]
    by_cases hmaj : (s.peers.length + 1) / 2 < s.votesReceived + 1
    · rw [if_pos hmaj]
      exact ⟨rfl, ⟨fun _ => hmaj, fun _ => rfl⟩, fun _ => rfl⟩
    · rw [if_neg hmaj]
      refine ⟨rfl, ?_, fun hm => absurd hm hmaj⟩
      constructor
      · intro hst
        dsimp only at hst
        rw [hc] at hst
        cases hst
      · intro hm
        exact absurd hm hmaj

/-- C6 witness: the candidate `exCandidate` (one self-vote, two peers)
counting a granted equal-term response reaches 2 > 3 // 2 votes and
becomes leader. -/
theorem C6_witness :
    (handleVoteResponse exCandidate exVR3).state = Role.leader :=
  (((C6_vote_counting exCandidate exVR3 0 0 rfl).2.2.2.1 rfl rfl).2.1).mpr
    (by decide)

/-! ## Claim C7 -/

/-- C7 counterexample: a *leader* receiving a vote_response with a
strictly higher term keeps its role, term and vote —
`handle_vote_response` returns early for every non-candidate — contrary
to the claimed demotion. -/
theorem C7_counterexample :
    exLeader.state = Role.leader ∧ exLeader.currentTerm < exVR5.term ∧
    handleVoteResponse exLeader exVR5 = exLeader := by
  refine ⟨rfl, by decide, rfl⟩

/-- C7 (amended): on a message with term strictly above `current_term`, a
candidate or leader becomes follower and adopts the term for
request_vote, append_entries and append_entries_response; but `voted_for`
is cleared only on append_entries_response — request_vote ends with
`voted_for = candidate` (the adopt-then-grant path always grants) and
append_entries ends with `voted_for = leader_id`; and a higher-term
vote_response demotes only a candidate, while a leader ignores it
entirely. -/
theorem C7_amended {α : Type} [DecidableEq α] (s : RaftState α FileOp)
    (hr : s.state = Role.candidate ∨ s.state = Role.leader) :
    (∀ (m : RequestVoteMsg α) (now tnew : ℚ), s.currentTerm < m.term →
      (handleRequestVote s m now tnew).1.state = Role.follower ∧
      (handleRequestVote s m now tnew).1.currentTerm = m.term ∧
      (handleRequestVote s m now tnew).1.votedFor = some m.candidateId) ∧
    (∀ (m : AppendEntriesMsg α FileOp) (now tnew : ℚ),
      s.currentTerm < m.term →
      (handleAppendEntries s m now tnew).1.state = Role.follower ∧
      (handleAppendEntries s m now tnew).1.currentTerm = m.term ∧
      (handleAppendEntries s m now tnew).1.votedFor = some m.leaderId) ∧
    (∀ m : AppendEntriesRespMsg, s.currentTerm < m.term →
      handleAppendEntriesResponse s m =
        { s with currentTerm := m.term, state := Role.follower,
                 votedFor := none, leaderId := none }) ∧
    (∀ m : VoteResponseMsg α, s.currentTerm < m.term →
      (s.state = Role.candidate →
        handleVoteResponse s m =
          { s with currentTerm := m.term, state := Role.follower,
                   votedFor := none }) ∧
      (s.state = Role.leader → handleVoteResponse s m = s)) := by
  refine ⟨?_, ?_, ?_, ?_⟩
  · intro m now tnew hlt
    unfold handleRequestVote
    dsimp only
    rw [if_pos hlt, if_pos ⟨Or.inl rfl, le_refl _⟩]
    exact ⟨rfl, rfl, rfl⟩
  · intro m now tnew hlt
    unfold handleAppendEntries
    rw [if_pos (le_of_lt hlt)]
    exact ⟨rfl, rfl, rfl⟩
  · intro m hlt
    unfold handleAppendEntriesResponse
    rw [if_pos hlt]
  · intro m hlt
    constructor
    · intro hcand
      unfold handleVoteResponse
      rw [if_neg (by rw [hcand]; simp), if_pos hlt]
    · intro hlead
      unfold handleVoteResponse
      rw [if_pos (by rw [hlead]; simp)]

/-- C7 witness: the amended statement applied to the candidate
`exCandidate` (term 3) and a term-5 append_entries_response. -/
theorem C7_amended_witness :
    handleAppendEntriesResponse exCandidate { term := 5, success := true } =
      { exCandidate with currentTerm := 5, state := Role.follower,
                         votedFor := none, leaderId := none } :=
  (C7_amended exCandidate (Or.inl rfl)).2.2.1 { term := 5, success := true }
    (by decide)

/-! ## Log-preservation lemmas for the handlers -/

theorem hrv_log {α ε : Type} [DecidableEq α] (s : RaftState α ε)
    (m : RequestVoteMsg α) (now tnew : ℚ) :
    (handleRequestVote s m now tnew).1.log = s.log := by
  unfold handleRequestVote
  dsimp only
  by_cases h1 : m.term > s.currentTerm
  · rw [if_pos h1]; split <;> rfl
  · rw [if_neg h1]; split <;> rfl

theorem hvr_log {α ε : Type} (s : RaftState α ε) (m : VoteResponseMsg α) :
    (handleVoteResponse s m).log = s.log := by
  unfold handleVoteResponse
  split
  · rfl
  · split
    · rfl
    · split
      · rfl
      · split
        · dsimp only
          split <;> rfl
        · rfl

theorem hae_log {α ε : Type} (s : RaftState α ε) (m : AppendEntriesMsg α ε)
    (now tnew : ℚ) :
    (handleAppendEntries s m now tnew).1.log = s.log := by
  unfold handleAppendEntries
  split <;> rfl

theorem haer_log {α ε : Type} (s : RaftState α ε)
    (m : AppendEntriesRespMsg) :
    (handleAppendEntriesResponse s m).log = s.log := by
  unfold handleAppendEntriesResponse
  split <;> rfl

theorem mem_of_mem_removed {γ : Type} {l1 l2 : List γ} {x : γ}
    {net : List γ} (hnet : net = l1 ++ x :: l2) {y : γ}
    (hy : y ∈ l1 ++ l2) : y ∈ net := by
  rw [hnet]
  rcases List.mem_append.mp hy with h | h
  · exact List.mem_append.mpr (Or.inl h)
  · exact List.mem_append.mpr (Or.inr (List.mem_cons_of_mem _ h))

theorem step_log_eq {n : Nat} {c c' : Cluster n} (h : Step c c') (r : Fin n) :
    (c'.nodes r).log = (c.nodes r).log := by
  cases h with
  | timeout rr now tnew hrole =>
      show (Function.update c.nodes rr _ r).log = _
      by_cases hrr : r = rr
      · subst hrr
        rw [Function.update_same]
        rfl
      · rw [Function.update_noteq hrr]
  | deliver rr msg l1 l2 now tnew hnet =>
      cases msg with
      | requestVote m =>
          show (Function.update c.nodes rr _ r).log = _
          by_cases hrr : r = rr
          · subst hrr
            rw [Function.update_same]
            exact hrv_log ..
          · rw [Function.update_noteq hrr]
      | voteResponse m =>
          show (Function.update c.nodes rr _ r).log = _
          by_cases hrr : r = rr
          · subst hrr
            rw [Function.update_same]
            exact hvr_log ..
          · rw [Function.update_noteq hrr]
      | appendEntries m =>
          show (Function.update c.nodes rr _ r).log = _
          by_cases hrr : r = rr
          · subst hrr
            rw [Function.update_same]
            exact hae_log ..
          · rw [Function.update_noteq hrr]
      | appendEntriesResponse m =>
          show (Function.update c.nodes rr _ r).log = _
          by_cases hrr : r = rr
          · subst hrr
            rw [Function.update_same]
            exact haer_log ..
          · rw [Function.update_noteq hrr]
  | heartbeat rr hl => rfl

theorem step_ae_empty {n : Nat} {c c' : Cluster n} (h : Step c c')
    (hc : ∀ dm ∈ c.network, ∀ ae : AppendEntriesMsg (Fin n) FileOp,
      dm.2 = RaftMsg.appendEntries ae → ae.entries = []) :
    ∀ dm ∈ c'.network, ∀ ae : AppendEntriesMsg (Fin n) FileOp,
      dm.2 = RaftMsg.appendEntries ae → ae.entries = [] := by
  cases h with
  | timeout rr now tnew hrole =>
      intro dm hdm ae hae
      rcases List.mem_append.mp hdm with hdm | hdm
      · exact hc dm hdm ae hae
      · obtain ⟨pm, _, rfl⟩ := List.mem_map.mp hdm
        cases hae
  | deliver rr msg l1 l2 now tnew hnet =>
      intro dm hdm ae hae
      cases msg with
      | requestVote m =>
          rcases List.mem_append.mp hdm with hdm | hdm
          · exact hc dm (mem_of_mem_removed hnet hdm) ae hae
          · rw [List.mem_singleton] at hdm
            subst hdm
            cases hae
      | voteResponse m =>
          exact hc dm (mem_of_mem_removed hnet hdm) ae hae
      | appendEntries m =>
          rcases List.mem_append.mp hdm with hdm | hdm
          · exact hc dm (mem_of_mem_removed hnet hdm) ae hae
          · rw [List.mem_singleton] at hdm
            subst hdm
            cases hae
      | appendEntriesResponse m =>
          exact hc dm (mem_of_mem_removed hnet hdm) ae hae
  | heartbeat rr hl =>
      intro dm hdm ae hae
      rcases List.mem_append.mp hdm with hdm | hdm
      · exact hc dm hdm ae hae
      · obtain ⟨pm, hpm, rfl⟩ := List.mem_map.mp hdm
        obtain ⟨p, _, rfl⟩ := List.mem_map.mp hpm
        cases hae
        rfl

theorem reachable_ae_empty {n : Nat} {c : Cluster n}
    (h : ReachableCore c) :
    ∀ dm ∈ c.network, ∀ ae : AppendEntriesMsg (Fin n) FileOp,
      dm.2 = RaftMsg.appendEntries ae → ae.entries = [] := by
  obtain ⟨timeout0, now0, hsteps⟩ := h
  induction hsteps with
  | refl =>
      intro dm hdm
      simp [initCluster] at hdm
  | tail hs hstep ih =>
      exact step_ae_empty hstep ih

/-! ## Claim C8 -/

/-- C8: every heartbeat the leader emits carries an empty `entries` list;
handling `append_entries` never appends to the log and leaves the file
map and persistence sink untouched; consequently every in-flight
`append_entries` in a reachable replica set is entry-free and no step of
the replica set changes any replica's log — leader log entries are never
transferred through the heartbeat protocol. -/
theorem C8_no_entry_transfer {α : Type} [DecidableEq α]
    (s : RaftState α FileOp) (fs : FSState α)
    (m : AppendEntriesMsg α FileOp) (now tnew : ℚ) {n : Nat}
    (c c' : Cluster n) (hreach : ReachableCore c) (hstep : Step c c') :
    (∀ x ∈ sendHeartbeats s, x.2.entries = ([] : List (LogEntry FileOp))) ∧
    (handleAppendEntries s m now tnew).1.log = s.log ∧
    (handleAppendEntriesFS fs m now tnew).1.files = fs.files ∧
    (handleAppendEntriesFS fs m now tnew).1.storage = fs.storage ∧
    (∀ dm ∈ c.network, ∀ ae : AppendEntriesMsg (Fin n) FileOp,
      dm.2 = RaftMsg.appendEntries ae → ae.entries = []) ∧
    (∀ r : Fin n, (c'.nodes r).log = (c.nodes r).log) := by
  refine ⟨?_, hae_log .., rfl, rfl, reachable_ae_empty hreach,
    fun r => step_log_eq hstep r⟩
  intro x hx
  obtain ⟨p, _, rfl⟩ := List.mem_map.mp hx
  rfl

/-- C8 witness: the theorem applied to the initial three-replica set and
an election step by replica 0. -/
theorem C8_witness :
    ((electionStep (initCluster 3 (fun _ => 1) (fun _ => 0)) 0 1 2).nodes
      0).log =
      ((initCluster 3 (fun _ => 1) (fun _ => 0)).nodes 0).log :=
  (C8_no_entry_transfer exLeader exFS exAEfromS2 0 0
    (initCluster 3 (fun _ => 1) (fun _ => 0))
    (electionStep (initCluster 3 (fun _ => 1) (fun _ => 0)) 0 1 2)
    ⟨fun _ => 1, fun _ => 0, Relation.ReflTransGen.refl⟩
    (Step.timeout (initCluster 3 (fun _ => 1) (fun _ => 0)) 0 1 2
      (Or.inl rfl))).2.2.2.2.2 0

/-! ## Claim C1 — counterexample against the claim as stated -/

/-- C1 counterexample: with `become_leader` among the steps (as the claim
lists it), two replicas of the initial three-replica set can each take
the unconditional `become_leader` step and both end up `leader` at term 0
— the at-most-one-leader-per-term invariant fails over this two-step
sequence. -/
theorem C1_counterexample :
    ReachableFull exTwoBecomeLeaders ∧
      ¬ oneLeaderPerTerm exTwoBecomeLeaders := by
  constructor
  · refine ⟨fun _ => 1, fun _ => 0, ?_⟩
    exact Relation.ReflTransGen.tail
      (Relation.ReflTransGen.tail Relation.ReflTransGen.refl
        (StepFull.become _ 0))
      (StepFull.become _ 1)
  · intro hone
    exact absurd (hone 0 1 (by decide) (by decide) (by decide)) (by decide)

/-! ## Handler case-analysis lemmas (for the election-safety proof) -/

/-- Trichotomy for `handle_request_vote`: adopt-and-grant on a strictly
higher term, equal-term grant, or refusal with no state change. -/
theorem hrv_cases {α ε : Type} [DecidableEq α] (s : RaftState α ε)
    (m : RequestVoteMsg α) (now tnew : ℚ) :
    (s.currentTerm < m.term ∧ handleRequestVote s m now tnew =
      ({ s with currentTerm := m.term, votedFor := some m.candidateId,
                state := Role.follower, lastHeartbeat := now,
                electionTimeout := tnew },
        (m.candidateId, { term := s.currentTerm, voteGranted := true,
                          sourceId := s.serverId }))) ∨
    (m.term = s.currentTerm ∧
      (s.votedFor = none ∨ s.votedFor = some m.candidateId) ∧
      handleRequestVote s m now tnew =
      ({ s with votedFor := some m.candidateId, currentTerm := m.term },
        (m.candidateId, { term := s.currentTerm, voteGranted := true,
                          sourceId := s.serverId }))) ∨
    ((m.term < s.currentTerm ∨ (m.term = s.currentTerm ∧
        ¬(s.votedFor = none ∨ s.votedFor = some m.candidateId))) ∧
      handleRequestVote s m now tnew =
      (s, (m.candidateId, { term := s.currentTerm, voteGranted := false,
                            sourceId := s.serverId }))) := by
  unfold handleRequestVote
  dsimp only
  by_cases h1 : m.term > s.currentTerm
  · rw [if_pos h1, if_pos ⟨Or.inl rfl, le_refl _⟩]
    exact Or.inl ⟨h1, rfl⟩
  · rw [if_neg h1]
    by_cases h2 : (s.votedFor = none ∨ s.votedFor = some m.candidateId) ∧
        m.term ≥ s.currentTerm
    · rw [if_pos h2]
      exact Or.inr (Or.inl ⟨by omega, h2.1, rfl⟩)
    · rw [if_neg h2]
      refine Or.inr (Or.inr ⟨?_, rfl⟩)
      by_cases h3 : m.term < s.currentTerm
      · exact Or.inl h3
      · refine Or.inr ⟨by omega, ?_⟩
        intro hv
        exact h2 ⟨hv, by omega⟩

/-- Case analysis for `handle_vote_response`. -/
theorem hvr_cases {α ε : Type} (s : RaftState α ε) (m : VoteResponseMsg α) :
    (s.state ≠ Role.candidate ∧ handleVoteResponse s m = s) ∨
    (s.state = Role.candidate ∧ s.currentTerm < m.term ∧
      handleVoteResponse s m =
        { s with currentTerm := m.term, state := Role.follower,
                 votedFor := none }) ∨
    (s.state = Role.candidate ∧ m.term < s.currentTerm ∧
      handleVoteResponse s m = s) ∨
    (s.state = Role.candidate ∧ m.term = s.currentTerm ∧
      m.voteGranted = false ∧ handleVoteResponse s m = s) ∨
    (s.state = Role.candidate ∧ m.term = s.currentTerm ∧
      m.voteGranted = true ∧
      majorityThreshold s < s.votesReceived + 1 ∧
      handleVoteResponse s m =
        { s with votesReceived := s.votesReceived + 1, state := Role.leader,
                 leaderId := some s.serverId }) ∨
    (s.state = Role.candidate ∧ m.term = s.currentTerm ∧
      m.voteGranted = true ∧
      ¬(majorityThreshold s < s.votesReceived + 1) ∧
      handleVoteResponse s m =
        { s with votesReceived := s.votesReceived + 1 }) := by
  unfold handleVoteResponse
  by_cases h0 : s.state ≠ Role.candidate
  · rw [if_pos h0]
    exact Or.inl ⟨h0, rfl⟩
  · rw [if_neg h0]
    have hc : s.state = Role.candidate := not_not.mp h0
    by_cases h1 : m.term > s.currentTerm
    · rw [if_pos h1]
      exact Or.inr (Or.inl ⟨hc, h1, rfl⟩)
    · rw [if_neg h1]
      by_cases h2 : m.term < s.currentTerm
      · rw [if_pos h2]
        exact Or.inr (Or.inr (Or.inl ⟨hc, h2, rfl⟩))
      · rw [if_neg h2]
        cases hg : m.voteGranted with
        | false =>
            rw [if_neg (fun h => nomatch h)]
            exact Or.inr (Or.inr (Or.inr (Or.inl ⟨hc, by omega, rfl, rfl⟩)))
        | true =>
            rw [if_pos rfl]
            by_cases h3 : majorityThreshold s < s.votesReceived + 1
            · rw [if_pos h3]
              exact Or.inr (Or.inr (Or.inr (Or.inr (Or.inl
                ⟨hc, by omega, rfl, h3, rfl⟩))))
            · rw [if_neg h3]
              exact Or.inr (Or.inr (Or.inr (Or.inr (Or.inr
                ⟨hc, by omega, rfl, h3, rfl⟩))))

/-- Dichotomy for `handle_append_entries`. -/
theorem hae_cases {α ε : Type} (s : RaftState α ε)
    (m : AppendEntriesMsg α ε) (now tnew : ℚ) :
    (s.currentTerm ≤ m.term ∧ handleAppendEntries s m now tnew =
      ({ s with currentTerm := m.term, state := Role.follower,
                votedFor := some m.leaderId, leaderId := some m.leaderId,
                lastHeartbeat := now, electionTimeout := tnew },
        (m.leaderId, { term := m.term, success := true }))) ∨
    (m.term < s.currentTerm ∧ handleAppendEntries s m now tnew =
      (s, (m.leaderId, { term := s.currentTerm, success := false }))) := by
  unfold handleAppendEntries
  by_cases h1 : m.term ≥ s.currentTerm
  · rw [if_pos h1]
    exact Or.inl ⟨h1, rfl⟩
  · rw [if_neg h1]
    exact Or.inr ⟨by omega, rfl⟩

/-- Dichotomy for `handle_append_entries_response`. -/
theorem haer_cases {α ε : Type} (s : RaftState α ε)
    (m : AppendEntriesRespMsg) :
    (s.currentTerm < m.term ∧ handleAppendEntriesResponse s m =
      { s with currentTerm := m.term, state := Role.follower,
               votedFor := none, leaderId := none }) ∨
    (m.term ≤ s.currentTerm ∧ handleAppendEntriesResponse s m = s) := by
  unfold handleAppendEntriesResponse
  by_cases h1 : m.term > s.currentTerm
  · rw [if_pos h1]
    exact Or.inl ⟨h1, rfl⟩
  · rw [if_neg h1]
    exact Or.inr ⟨by omega, rfl⟩

/-! ## Term monotonicity and candidacy-regress lemmas -/

theorem hvr_term_mono {α ε : Type} (s : RaftState α ε)
    (m : VoteResponseMsg α) :
    s.currentTerm ≤ (handleVoteResponse s m).currentTerm := by
  rcases hvr_cases s m with ⟨_, h⟩ | ⟨_, h1, h⟩ | ⟨_, _, h⟩ | ⟨_, _, _, h⟩ |
    ⟨_, _, _, _, h⟩ | ⟨_, _, _, _, h⟩ <;> rw [h] <;> (try dsimp only) <;>
    omega

theorem hae_term_mono {α ε : Type} (s : RaftState α ε)
    (m : AppendEntriesMsg α ε) (now tnew : ℚ) :
    s.currentTerm ≤ (handleAppendEntries s m now tnew).1.currentTerm := by
  rcases hae_cases s m now tnew with ⟨h1, h⟩ | ⟨h1, h⟩ <;> rw [h] <;>
    (try dsimp only) <;> omega

theorem haer_term_mono {α ε : Type} (s : RaftState α ε)
    (m : AppendEntriesRespMsg) :
    s.currentTerm ≤ (handleAppendEntriesResponse s m).currentTerm := by
  rcases haer_cases s m with ⟨h1, h⟩ | ⟨h1, h⟩ <;> rw [h] <;>
    (try dsimp only) <;> omega

theorem hrv_cand_back {α ε : Type} [DecidableEq α] (s : RaftState α ε)
    (m : RequestVoteMsg α) (now tnew : ℚ) (T : Nat)
    (hT : (handleRequestVote s m now tnew).1.currentTerm = T)
    (hst : (handleRequestVote s m now tnew).1.state = Role.candidate) :
    s.currentTerm = T ∧ s.state = Role.candidate := by
  rcases hrv_cases s m now tnew with ⟨h1, h⟩ | ⟨h1, h2, h⟩ | ⟨h1, h⟩ <;>
    rw [h] at hT hst <;> (try dsimp only at hT hst)
  · exact absurd hst (by decide)
  · exact ⟨by omega, hst⟩
  · exact ⟨hT, hst⟩

theorem hvr_cand_back {α ε : Type} (s : RaftState α ε)
    (m : VoteResponseMsg α) (T : Nat)
    (hT : (handleVoteResponse s m).currentTerm = T)
    (hst : (handleVoteResponse s m).state = Role.candidate) :
    s.currentTerm = T ∧ s.state = Role.candidate := by
  rcases hvr_cases s m with ⟨_, h⟩ | ⟨_, _, h⟩ | ⟨_, _, h⟩ | ⟨_, _, _, h⟩ |
    ⟨_, _, _, _, h⟩ | ⟨hc, _, _, _, h⟩ <;> rw [h] at hT hst <;>
    (try dsimp only at hT hst)
  · exact ⟨hT, hst⟩
  · exact absurd hst (by decide)
  · exact ⟨hT, hst⟩
  · exact ⟨hT, hst⟩
  · exact absurd hst (by decide)
  · exact ⟨hT, hc⟩

theorem hae_cand_back {α ε : Type} (s : RaftState α ε)
    (m : AppendEntriesMsg α ε) (now tnew : ℚ) (T : Nat)
    (hT : (handleAppendEntries s m now tnew).1.currentTerm = T)
    (hst : (handleAppendEntries s m now tnew).1.state = Role.candidate) :
    s.currentTerm = T ∧ s.state = Role.candidate := by
  rcases hae_cases s m now tnew with ⟨_, h⟩ | ⟨_, h⟩ <;>
    rw [h] at hT hst <;> (try dsimp only at hT hst)
  · exact absurd hst (by decide)
  · exact ⟨hT, hst⟩

theorem haer_cand_back {α ε : Type} (s : RaftState α ε)
    (m : AppendEntriesRespMsg) (T : Nat)
    (hT : (handleAppendEntriesResponse s m).currentTerm = T)
    (hst : (handleAppendEntriesResponse s m).state = Role.candidate) :
    s.currentTerm = T ∧ s.state = Role.candidate := by
  rcases haer_cases s m with ⟨_, h⟩ | ⟨_, h⟩ <;>
    rw [h] at hT hst <;> (try dsimp only at hT hst)
  · exact absurd hst (by decide)
  · exact ⟨hT, hst⟩

/-- Node-level closure of the `cannotCount` predicate: if the term only
grows and candidacy at term `T` can only persist (never newly arise at
the same term), the predicate survives the transition. -/
theorem cannotCount_mono_node {α ε : Type} (s s' : RaftState α ε) (T : Nat)
    (hterm : s.currentTerm ≤ s'.currentTerm)
    (hcand : s'.currentTerm = T → s'.state = Role.candidate →
      s.currentTerm = T ∧ s.state = Role.candidate)
    (h : T < s.currentTerm ∨
      (s.currentTerm = T ∧ s.state ≠ Role.candidate)) :
    T < s'.currentTerm ∨
      (s'.currentTerm = T ∧ s'.state ≠ Role.candidate) := by
  rcases h with h | ⟨hT, hst⟩
  · exact Or.inl (lt_of_lt_of_le h hterm)
  · by_cases h2 : T < s'.currentTerm
    · exact Or.inl h2
    · have hTeq : s'.currentTerm = T := by omega
      refine Or.inr ⟨hTeq, fun hcand' => ?_⟩
      exact hst (hcand hTeq hcand').2

/-- `cannotCount` is preserved by every core step. -/
theorem cannotCount_step {n : Nat} {c c' : Cluster n} (h : Step c c')
    (x : Fin n) (T : Nat) (hcc : cannotCount c x T) : cannotCount c' x T := by
  unfold cannotCount at *
  cases h with
  | timeout rr now tnew hrole =>
      simp only [electionStep]
      by_cases hx : x = rr
      · subst hx
        rw [Function.update_same]
        show T < (c.nodes x).currentTerm + 1 ∨ _
        rcases hcc with h | ⟨h1, _⟩
        · exact Or.inl (by omega)
        · exact Or.inl (by omega)
      · rw [Function.update_noteq hx]
        exact hcc
  | deliver rr msg l1 l2 now tnew hnet =>
      cases msg with
      | requestVote m =>
          simp only [deliverStep]
          by_cases hx : x = rr
          · subst hx
            rw [Function.update_same]
            exact cannotCount_mono_node _ _ T (hrv_term_mono ..)
              (hrv_cand_back (c.nodes x) m now tnew T) hcc
          · rw [Function.update_noteq hx]
            exact hcc
      | voteResponse m =>
          simp only [deliverStep]
          by_cases hx : x = rr
          · subst hx
            rw [Function.update_same]
            exact cannotCount_mono_node _ _ T (hvr_term_mono ..)
              (hvr_cand_back (c.nodes x) m T) hcc
          · rw [Function.update_noteq hx]
            exact hcc
      | appendEntries m =>
          simp only [deliverStep]
          by_cases hx : x = rr
          · subst hx
            rw [Function.update_same]
            exact cannotCount_mono_node _ _ T (hae_term_mono ..)
              (hae_cand_back (c.nodes x) m now tnew T) hcc
          · rw [Function.update_noteq hx]
            exact hcc
      | appendEntriesResponse m =>
          simp only [deliverStep]
          by_cases hx : x = rr
          · subst hx
            rw [Function.update_same]
            exact cannotCount_mono_node _ _ T (haer_term_mono ..)
              (haer_cand_back (c.nodes x) m T) hcc
          · rw [Function.update_noteq hx]
            exact hcc
  | heartbeat rr hl =>
      exact hcc

/-- Terms never decrease along a core step. -/
theorem step_term_mono {n : Nat} {c c' : Cluster n} (h : Step c c')
    (r : Fin n) :
    (c.nodes r).currentTerm ≤ (c'.nodes r).currentTerm := by
  cases h with
  | timeout rr now tnew hrole =>
      simp only [electionStep]
      by_cases hx : r = rr
      · subst hx
        rw [Function.update_same]
        show _ ≤ (c.nodes r).currentTerm + 1
        omega
      · rw [Function.update_noteq hx]
  | deliver rr msg l1 l2 now tnew hnet =>
      cases msg with
      | requestVote m =>
          simp only [deliverStep]
          by_cases hx : r = rr
          · subst hx
            rw [Function.update_same]
            exact hrv_term_mono ..
          · rw [Function.update_noteq hx]
      | voteResponse m =>
          simp only [deliverStep]
          by_cases hx : r = rr
          · subst hx
            rw [Function.update_same]
            exact hvr_term_mono ..
          · rw [Function.update_noteq hx]
      | appendEntries m =>
          simp only [deliverStep]
          by_cases hx : r = rr
          · subst hx
            rw [Function.update_same]
            exact hae_term_mono ..
          · rw [Function.update_noteq hx]
      | appendEntriesResponse m =>
          simp only [deliverStep]
          by_cases hx : r = rr
          · subst hx
            rw [Function.update_same]
            exact haer_term_mono ..
          · rw [Function.update_noteq hx]
  | heartbeat rr hl =>
      exact le_refl _

/-! ## Counting and support lemmas -/

theorem length_filter_ne {δ : Type} [DecidableEq δ] (l : List δ) (r : δ)
    (hnd : l.Nodup) (hmem : r ∈ l) :
    (l.filter (fun p => p ≠ r)).length = l.length - 1 := by
  induction l with
  | nil => cases hmem
  | cons a t ih =>
      rcases List.mem_cons.mp hmem with rfl | hmem'
      · have hnr : r ∉ t := (List.nodup_cons.mp hnd).1
        have ht : t.filter (fun p => p ≠ r) = t := by
          apply List.filter_eq_self.mpr
          intro x hx
          have hxr : x ≠ r := fun h => hnr (h ▸ hx)
          simpa using hxr
        simp only [List.filter_cons]
        rw [if_neg (by simp)]
        rw [ht]
        simp
      · have ha : a ≠ r := by
          intro h
          subst h
          exact (List.nodup_cons.mp hnd).1 hmem'
        have hpos : 0 < t.length := List.length_pos_of_mem hmem'
        have iht := ih (List.nodup_cons.mp hnd).2 hmem'
        simp only [List.filter_cons]
        rw [if_pos (by simpa using ha)]
        simp only [List.length_cons]
        omega

theorem peers_length_eq {n : Nat} (r : Fin n) :
    ((List.finRange n).filter (fun p => p ≠ r)).length = n - 1 := by
  rw [length_filter_ne _ r (List.nodup_finRange n) (List.mem_finRange r)]
  simp

theorem peers_nodup {n : Nat} (r : Fin n) :
    ((List.finRange n).filter (fun p => p ≠ r)).Nodup :=
  (List.nodup_finRange n).filter _

theorem peers_ne {n : Nat} (r p : Fin n)
    (hp : p ∈ (List.finRange n).filter (fun p => p ≠ r)) : p ≠ r := by
  have := List.of_mem_filter hp
  simpa using this

theorem mem_peers {n : Nat} (r p : Fin n) (hne : p ≠ r) :
    p ∈ (List.finRange n).filter (fun p => p ≠ r) :=
  List.mem_filter.mpr ⟨List.mem_finRange p, by simpa using hne⟩

/-- `supp` is unchanged whenever the ghost is unchanged at the term. -/
theorem supp_of_eq_at {n : Nat} {c c' : Cluster n} {T : Nat}
    (h : ∀ p, c'.gvote p T = c.gvote p T) (x : Fin n) :
    supp c' T x = supp c T x := by
  unfold supp
  ext p
  simp [h p]

theorem mem_supp {n : Nat} {c : Cluster n} {T : Nat} {x p : Fin n} :
    p ∈ supp c T x ↔ c.gvote p T = some x := by
  simp [supp]

/-- `supp` is unchanged by a ghost change that only writes values other
than `x` over `none`. -/
theorem supp_write_ne {n : Nat} {c c' : Cluster n} {T : Nat} {x : Fin n}
    (h : ∀ p, c'.gvote p T = c.gvote p T ∨
      (c.gvote p T = none ∧ ∃ v, v ≠ x ∧ c'.gvote p T = some v)) :
    supp c' T x = supp c T x := by
  ext p
  rcases h p with hp | ⟨h0, v, hv, h1⟩
  · simp [mem_supp, hp]
  · simp only [mem_supp, h0, h1]
    constructor
    · intro hx
      exact absurd (Option.some_inj.mp hx) hv
    · intro hx
      cases hx

/-- Writing `some x` over `none` at `p0` grows the support by one. -/
theorem supp_write_card {n : Nat} {c c' : Cluster n} {T : Nat} {x p0 : Fin n}
    (h0 : c.gvote p0 T = none) (h1 : c'.gvote p0 T = some x)
    (hother : ∀ p, p ≠ p0 → c'.gvote p T = c.gvote p T) :
    (supp c' T x).card = (supp c T x).card + 1 := by
  have hins : supp c' T x = insert p0 (supp c T x) := by
    ext p
    by_cases hp : p = p0
    · subst hp
      simp [mem_supp, h1]
    · simp only [mem_supp, hother p hp, Finset.mem_insert, hp, false_or]
  rw [hins, Finset.card_insert_of_not_mem]
  simp [mem_supp, h0]

/-! ## The invariant holds initially -/

theorem inv_init (n : Nat) (timeout0 now0 : Fin n → ℚ) :
    Inv (initCluster n timeout0 now0) := by
  refine ⟨?_, ?_, ?_, ?_, ?_, ?_, ?_, ?_, ?_, ?_, ?_, ?_, ?_⟩
  · intro r; rfl
  · intro r; rfl
  · intro p T h
    exact absurd rfl h
  · intro p x T h
    cases h
  · intro dm hdm
    cases hdm
  · intro dm hdm
    cases hdm
  · intro T x p
    simp [initCluster]
  · intro dm hdm
    cases hdm
  · intro dm hdm
    cases hdm
  · intro r h
    cases h
  · intro p x h
    cases h
  · intro r h
    cases h
  · intro r h
    cases h

/-! ## Invariant preservation: heartbeat step -/

theorem inv_heartbeat {n : Nat} {c : Cluster n} (hInv : Inv c) (rr : Fin n)
    (hl : (c.nodes rr).state = Role.leader) :
    Inv (heartbeatStep c rr) := by
  have hcc : cannotCount c ((c.nodes rr).serverId) ((c.nodes rr).currentTerm) := by
    rw [hInv.wfId rr]
    exact Or.inr ⟨rfl, by rw [hl]; decide⟩
  refine ⟨hInv.wfPeers, hInv.wfId, hInv.ghostTermSelf, hInv.ghostTermCand,
    ?_, ?_, ?_, ?_, ?_, hInv.votedSelf, hInv.ghostVoted, ?_, hInv.leaderMaj⟩
  · intro dm hdm m hm
    rcases List.mem_append.mp hdm with hdm | hdm
    · exact hInv.rvBound dm hdm m hm
    · obtain ⟨pm, _, rfl⟩ := List.mem_map.mp hdm
      cases hm
  · intro dm hdm m hm
    rcases List.mem_append.mp hdm with hdm | hdm
    · exact hInv.rvGhost dm hdm m hm
    · obtain ⟨pm, _, rfl⟩ := List.mem_map.mp hdm
      cases hm
  · intro T x p
    show (c.network ++
      (sendHeartbeats (c.nodes rr)).map
        (fun pm => (pm.1, RaftMsg.appendEntries pm.2))).countP (isRV T x p) ≤ 1
    rw [List.countP_append]
    have hz : ((sendHeartbeats (c.nodes rr)).map
        (fun pm => (pm.1, RaftMsg.appendEntries pm.2))).countP
          (isRV T x p) = 0 := by
      rw [List.countP_eq_zero]
      intro a ha
      obtain ⟨pm, _, rfl⟩ := List.mem_map.mp ha
      simp [isRV]
    rw [hz]
    simpa using hInv.rvUnique T x p
  · intro dm hdm m hm hg
    rcases List.mem_append.mp hdm with hdm | hdm
    · exact hInv.vrBound dm hdm m hm hg
    · obtain ⟨pm, _, rfl⟩ := List.mem_map.mp hdm
      cases hm
  · intro dm hdm m hm
    rcases List.mem_append.mp hdm with hdm | hdm
    · exact hInv.aeBound dm hdm m hm
    · obtain ⟨pm, hpm, rfl⟩ := List.mem_map.mp hdm
      obtain ⟨p, hp, rfl⟩ := List.mem_map.mp hpm
      cases hm
      exact hcc
  · intro r hcand
    show (c.nodes r).votesReceived +
      (c.network ++
        (sendHeartbeats (c.nodes rr)).map
          (fun pm => (pm.1, RaftMsg.appendEntries pm.2))).countP
        (isGrantedVR r (c.nodes r).currentTerm) ≤
      (supp c (c.nodes r).currentTerm r).card
    rw [List.countP_append]
    have hz : ((sendHeartbeats (c.nodes rr)).map
        (fun pm => (pm.1, RaftMsg.appendEntries pm.2))).countP
          (isGrantedVR r (c.nodes r).currentTerm) = 0 := by
      rw [List.countP_eq_zero]
      intro a ha
      obtain ⟨pm, _, rfl⟩ := List.mem_map.mp ha
      simp [isGrantedVR]
    rw [hz]
    simpa using hInv.candCount r hcand

/-! ## Invariant preservation: election-timeout step -/

theorem countP_le_one_of_nodup {δ : Type} [DecidableEq δ] (l : List δ)
    (hnd : l.Nodup) (pred : δ → Bool) (p : δ)
    (himp : ∀ q, pred q = true → q = p) :
    l.countP pred ≤ 1 := by
  induction l with
  | nil => simp
  | cons a t ih =>
      rw [List.countP_cons]
      by_cases hpa : pred a = true
      · have hap := himp a hpa
        subst hap
        have hz : t.countP pred = 0 := by
          rw [List.countP_eq_zero]
          intro b hb hpb
          have hbp := himp b hpb
          subst hbp
          exact (List.nodup_cons.mp hnd).1 hb
        rw [hz, hpa]
        simp
      · have hpa' : pred a = false := by
          cases hx : pred a
          · rfl
          · exact absurd hx hpa
        rw [hpa']
        simp only [Bool.false_eq_true, if_false]
        have ht := ih (List.nodup_cons.mp hnd).2
        omega

theorem countP_rvmap_granted_zero {n : Nat}
    (l : List (Fin n × RequestVoteMsg (Fin n))) (x : Fin n) (T : Nat) :
    (l.map (fun pm => (pm.1, RaftMsg.requestVote pm.2))).countP
      (isGrantedVR x T) = 0 := by
  rw [List.countP_eq_zero]
  intro a ha
  obtain ⟨pm, _, rfl⟩ := List.mem_map.mp ha
  simp [isGrantedVR]

theorem inv_timeout {n : Nat} {c : Cluster n} (hInv : Inv c) (rr : Fin n)
    (now tnew : ℚ)
    (hrole : (c.nodes rr).state = Role.follower ∨
      (c.nodes rr).state = Role.candidate) :
    Inv (electionStep c rr now tnew) := by
  have hstep : Step c (electionStep c rr now tnew) :=
    Step.timeout c rr now tnew hrole
  set c' := electionStep c rr now tnew with hc'
  have hnodes_rr : c'.nodes rr = (startElection (c.nodes rr) now tnew).1 :=
    Function.update_same ..
  have hnodes_ne : ∀ r, r ≠ rr → c'.nodes r = c.nodes r :=
    fun r hr => Function.update_noteq hr ..
  have hgv : ∀ p T, c'.gvote p T =
      if p = rr ∧ T = (c.nodes rr).currentTerm + 1 then some rr
      else c.gvote p T := fun p T => rfl
  have hterm_rr : (c'.nodes rr).currentTerm = (c.nodes rr).currentTerm + 1 := by
    rw [hnodes_rr]
    rfl
  have hnet' : c'.network = c.network ++
      ((startElection (c.nodes rr) now tnew).2).map
        (fun pm =>
          (pm.1, (RaftMsg.requestVote pm.2 : RaftMsg (Fin n) FileOp))) := rfl
  have hnewRV : ∀ dm ∈ ((startElection (c.nodes rr) now tnew).2).map
      (fun pm =>
        (pm.1, (RaftMsg.requestVote pm.2 : RaftMsg (Fin n) FileOp))),
      ∃ p ∈ (c.nodes rr).peers, dm = (p, RaftMsg.requestVote
        { term := (c.nodes rr).currentTerm + 1,
          candidateId := (c.nodes rr).serverId,
          lastLogIndex := (c.nodes rr).log.length,
          lastLogTerm := lastLogTerm (c.nodes rr),
          sourceId := (c.nodes rr).serverId }) := by
    intro dm hdm
    obtain ⟨pm, hpm, rfl⟩ := List.mem_map.mp hdm
    obtain ⟨p, hp, rfl⟩ := List.mem_map.mp hpm
    exact ⟨p, hp, rfl⟩
  refine ⟨?_, ?_, ?_, ?_, ?_, ?_, ?_, ?_, ?_, ?_, ?_, ?_, ?_⟩
  · -- wfPeers
    intro r
    by_cases hr : r = rr
    · subst hr
      rw [hnodes_rr]
      exact hInv.wfPeers r
    · rw [hnodes_ne r hr]
      exact hInv.wfPeers r
  · -- wfId
    intro r
    by_cases hr : r = rr
    · subst hr
      rw [hnodes_rr]
      exact hInv.wfId r
    · rw [hnodes_ne r hr]
      exact hInv.wfId r
  · -- ghostTermSelf
    intro p T hgT
    rw [hgv p T] at hgT
    by_cases hcond : p = rr ∧ T = (c.nodes rr).currentTerm + 1
    · obtain ⟨rfl, rfl⟩ := hcond
      rw [hterm_rr]
    · rw [if_neg hcond] at hgT
      exact le_trans (hInv.ghostTermSelf p T hgT) (step_term_mono hstep p)
  · -- ghostTermCand
    intro p x T hgT
    rw [hgv p T] at hgT
    by_cases hcond : p = rr ∧ T = (c.nodes rr).currentTerm + 1
    · obtain ⟨rfl, rfl⟩ := hcond
      rw [if_pos ⟨rfl, rfl⟩] at hgT
      obtain rfl := Option.some_inj.mp hgT
      rw [hterm_rr]
    · rw [if_neg hcond] at hgT
      exact le_trans (hInv.ghostTermCand p x T hgT) (step_term_mono hstep x)
  · -- rvBound
    intro dm hdm m hm
    rw [hnet'] at hdm
    rcases List.mem_append.mp hdm with hdm | hdm
    · obtain ⟨h1, h2⟩ := hInv.rvBound dm hdm m hm
      exact ⟨le_trans h1 (step_term_mono hstep m.candidateId), h2⟩
    · obtain ⟨p, hp, rfl⟩ := hnewRV _ hdm
      cases hm
      rw [hInv.wfPeers rr] at hp
      have hpne : p ≠ rr := peers_ne rr p hp
      constructor
      · show (c.nodes rr).currentTerm + 1 ≤
          (c'.nodes ((c.nodes rr).serverId)).currentTerm
        rw [hInv.wfId rr, hterm_rr]
      · show (c.nodes rr).serverId ≠ p
        rw [hInv.wfId rr]
        exact fun h => hpne h.symm
  · -- rvGhost
    intro dm hdm m hm
    rw [hnet'] at hdm
    rcases List.mem_append.mp hdm with hdm | hdm
    · rw [hgv dm.1 m.term]
      by_cases hcond : dm.1 = rr ∧ m.term = (c.nodes rr).currentTerm + 1
      · rw [if_pos hcond]
        intro hEq
        have hcand_eq := Option.some_inj.mp hEq
        exact (hInv.rvBound dm hdm m hm).2 (hcond.1.trans hcand_eq).symm
      · rw [if_neg hcond]
        exact hInv.rvGhost dm hdm m hm
    · obtain ⟨p, hp, rfl⟩ := hnewRV _ hdm
      cases hm
      rw [hInv.wfPeers rr] at hp
      have hpne : p ≠ rr := peers_ne rr p hp
      show c'.gvote p ((c.nodes rr).currentTerm + 1) ≠
        some ((c.nodes rr).serverId)
      rw [hgv, if_neg (fun hcond => hpne hcond.1), hInv.wfId rr]
      intro hEq
      have hb := hInv.ghostTermCand p rr _ hEq
      omega
  · -- rvUnique
    intro T x p
    show c'.network.countP (isRV T x p) ≤ 1
    rw [hnet', List.countP_append]
    by_cases hkey : T = (c.nodes rr).currentTerm + 1 ∧
        x = (c.nodes rr).serverId
    · obtain ⟨rfl, rfl⟩ := hkey
      have hz : c.network.countP
          (isRV ((c.nodes rr).currentTerm + 1) ((c.nodes rr).serverId) p)
            = 0 := by
        rw [List.countP_eq_zero]
        intro a ha hpred
        obtain ⟨d, msg⟩ := a
        cases msg with
        | requestVote m0 =>
            have hpred' : d = p ∧
                m0.term = (c.nodes rr).currentTerm + 1 ∧
                m0.candidateId = (c.nodes rr).serverId := by
              simpa [isRV] using hpred
            have hb := (hInv.rvBound (d, .requestVote m0) ha m0 rfl).1
            rw [hpred'.2.2, hInv.wfId rr] at hb
            rw [hpred'.2.1] at hb
            omega
        | voteResponse m0 => simp [isRV] at hpred
        | appendEntries m0 => simp [isRV] at hpred
        | appendEntriesResponse m0 => simp [isRV] at hpred
      rw [hz, Nat.zero_add]
      have h2 : (startElection (c.nodes rr) now tnew).2 =
          ((c.nodes rr).peers).map (fun p =>
            (p, ({ term := (c.nodes rr).currentTerm + 1,
                   candidateId := (c.nodes rr).serverId,
                   lastLogIndex := (c.nodes rr).log.length,
                   lastLogTerm := lastLogTerm (c.nodes rr),
                   sourceId := (c.nodes rr).serverId } :
                RequestVoteMsg (Fin n)))) := rfl
      rw [h2, List.map_map, List.countP_map]
      apply countP_le_one_of_nodup _ ?nodup _ p
      · intro q hq
        simp only [Function.comp, isRV, decide_eq_true_eq] at hq
        exact hq.1
      · rw [hInv.wfPeers rr]
        exact peers_nodup rr
    · have hz : (((startElection (c.nodes rr) now tnew).2).map
          (fun pm => (pm.1, RaftMsg.requestVote pm.2))).countP
            (isRV T x p) = 0 := by
        rw [List.countP_eq_zero]
        intro a ha hpred
        obtain ⟨q, hq, rfl⟩ := hnewRV _ ha
        have hpred' : q = p ∧ (c.nodes rr).currentTerm + 1 = T ∧
            (c.nodes rr).serverId = x := by
          simpa [isRV] using hpred
        exact hkey ⟨hpred'.2.1.symm, hpred'.2.2.symm⟩
      rw [hz, Nat.add_zero]
      exact hInv.rvUnique T x p
  · -- vrBound
    intro dm hdm m hm hg
    rw [hnet'] at hdm
    rcases List.mem_append.mp hdm with hdm | hdm
    · exact le_trans (hInv.vrBound dm hdm m hm hg) (step_term_mono hstep dm.1)
    · obtain ⟨p, hp, rfl⟩ := hnewRV _ hdm
      cases hm
  · -- aeBound
    intro dm hdm m hm
    rw [hnet'] at hdm
    rcases List.mem_append.mp hdm with hdm | hdm
    · exact cannotCount_step hstep _ _ (hInv.aeBound dm hdm m hm)
    · obtain ⟨p, hp, rfl⟩ := hnewRV _ hdm
      cases hm
  · -- votedSelf
    intro r hcand
    by_cases hr : r = rr
    · subst hr
      constructor
      · show (c'.nodes r).votedFor = some r
        rw [hnodes_rr]
        show some (c.nodes r).serverId = some r
        rw [hInv.wfId r]
      · show c'.gvote r ((c'.nodes r).currentTerm) = some r
        rw [hterm_rr, hgv, if_pos ⟨rfl, rfl⟩]
    · rw [hnodes_ne r hr] at hcand
      obtain ⟨h1, h2⟩ := hInv.votedSelf r hcand
      constructor
      · rw [hnodes_ne r hr]
        exact h1
      · show c'.gvote r ((c'.nodes r).currentTerm) = some r
        rw [hnodes_ne r hr, hgv, if_neg (fun hcond => hr hcond.1)]
        exact h2
  · -- ghostVoted
    intro p x hg
    by_cases hp : p = rr
    · subst hp
      rw [hterm_rr, hgv, if_pos ⟨rfl, rfl⟩] at hg
      obtain rfl := Option.some_inj.mp hg
      refine ⟨p, ?_, Or.inl rfl⟩
      rw [hnodes_rr]
      show some (c.nodes p).serverId = some p
      rw [hInv.wfId p]
    · rw [hnodes_ne p hp] at hg
      rw [hgv, if_neg (fun hcond => hp hcond.1)] at hg
      obtain ⟨v, hvf, hval⟩ := hInv.ghostVoted p x hg
      refine ⟨v, ?_, ?_⟩
      · rw [hnodes_ne p hp]
        exact hvf
      · rcases hval with hval | hval
        · exact Or.inl hval
        · refine Or.inr ?_
          rw [hnodes_ne p hp]
          exact cannotCount_step hstep v _ hval
  · -- candCount
    intro r hcand
    by_cases hr : r = rr
    · subst hr
      have hv1 : (c'.nodes r).votesReceived = 1 := by
        rw [hnodes_rr]
        rfl
      have hcnt : cntVR c' r ((c'.nodes r).currentTerm) = 0 := by
        rw [hterm_rr]
        show c'.network.countP (isGrantedVR r ((c.nodes r).currentTerm + 1)) = 0
        rw [hnet', List.countP_append, countP_rvmap_granted_zero]
        rw [Nat.add_zero, List.countP_eq_zero]
        intro a ha hpred
        obtain ⟨d, msg⟩ := a
        cases msg with
        | voteResponse m0 =>
            have hpred' : d = r ∧
                m0.term = (c.nodes r).currentTerm + 1 ∧
                m0.voteGranted = true := by
              simpa [isGrantedVR] using hpred
            have hb : m0.term ≤ (c.nodes d).currentTerm :=
              hInv.vrBound (d, .voteResponse m0) ha m0 rfl hpred'.2.2
            rw [hpred'.1, hpred'.2.1] at hb
            omega
        | requestVote m0 => simp [isGrantedVR] at hpred
        | appendEntries m0 => simp [isGrantedVR] at hpred
        | appendEntriesResponse m0 => simp [isGrantedVR] at hpred
      have hsupp : supp c' ((c'.nodes r).currentTerm) r = {r} := by
        rw [hterm_rr]
        ext q
        rw [mem_supp, hgv]
        by_cases hq : q = r
        · subst hq
          rw [if_pos ⟨rfl, rfl⟩]
          simp
        · rw [if_neg (fun hcond => hq hcond.1)]
          simp only [Finset.mem_singleton, hq, iff_false]
          intro hEq
          have hb := hInv.ghostTermCand q r _ hEq
          omega
      rw [hv1, hcnt, hsupp]
      simp
    · rw [hnodes_ne r hr] at hcand
      have h0 := hInv.candCount r hcand
      show (c'.nodes r).votesReceived +
        cntVR c' r ((c'.nodes r).currentTerm) ≤
        (supp c' ((c'.nodes r).currentTerm) r).card
      rw [hnodes_ne r hr]
      have hcnt : cntVR c' r ((c.nodes r).currentTerm) =
          cntVR c r ((c.nodes r).currentTerm) := by
        show c'.network.countP (isGrantedVR r ((c.nodes r).currentTerm)) = _
        rw [hnet', List.countP_append, countP_rvmap_granted_zero, Nat.add_zero]
        rfl
      have hsupp : supp c' ((c.nodes r).currentTerm) r =
          supp c ((c.nodes r).currentTerm) r := by
        apply supp_write_ne
        intro q
        rw [hgv]
        by_cases hq : q = rr ∧ (c.nodes r).currentTerm =
            (c.nodes rr).currentTerm + 1
        · right
          refine ⟨?_, rr, fun h => hr h.symm, by rw [if_pos hq]⟩
          cases hgx : c.gvote q ((c.nodes r).currentTerm) with
          | none => rfl
          | some y =>
              have hb := hInv.ghostTermSelf q _ (by rw [hgx]; simp)
              obtain ⟨rfl, hT⟩ := hq
              omega
        · left
          rw [if_neg hq]
      rw [hcnt, hsupp]
      exact h0
  · -- leaderMaj
    intro r hlead
    by_cases hr : r = rr
    · subst hr
      have hst : (c'.nodes r).state = Role.candidate := by
        rw [hnodes_rr]
        rfl
      exact absurd (hst.symm.trans hlead) (by decide)
    · rw [hnodes_ne r hr] at hlead
      have h0 := hInv.leaderMaj r hlead
      show n / 2 + 1 ≤ (supp c' ((c'.nodes r).currentTerm) r).card
      rw [hnodes_ne r hr]
      have hsupp : supp c' ((c.nodes r).currentTerm) r =
          supp c ((c.nodes r).currentTerm) r := by
        apply supp_write_ne
        intro q
        rw [hgv]
        by_cases hq : q = rr ∧ (c.nodes r).currentTerm =
            (c.nodes rr).currentTerm + 1
        · right
          refine ⟨?_, rr, fun h => hr h.symm, by rw [if_pos hq]⟩
          cases hgx : c.gvote q ((c.nodes r).currentTerm) with
          | none => rfl
          | some y =>
              have hb := hInv.ghostTermSelf q _ (by rw [hgx]; simp)
              obtain ⟨rfl, hT⟩ := hq
              omega
        · left
          rw [if_neg hq]
      rw [hsupp]
      exact h0

/-! ## Invariant preservation: delivery steps -/

theorem countP_mid {γ : Type} (l1 l2 : List γ) (y : γ) (pred : γ → Bool) :
    (l1 ++ y :: l2).countP pred =
      (l1 ++ l2).countP pred + (if pred y = true then 1 else 0) := by
  rw [List.countP_append, List.countP_cons, List.countP_append]
  exact (Nat.add_assoc _ _ _).symm

theorem countP_removed_le {γ : Type} (l1 l2 : List γ) (y : γ)
    (pred : γ → Bool) :
    (l1 ++ l2).countP pred ≤ (l1 ++ y :: l2).countP pred := by
  rw [countP_mid]
  exact Nat.le_add_right _ _

theorem countP_single {γ : Type} (pred : γ → Bool) (a : γ) :
    List.countP pred [a] = if pred a = true then 1 else 0 := by
  rw [List.countP_cons, List.countP_nil, Nat.zero_add]

/-- A removed-then-delivered message and a second matching in-flight message
force a predicate count of at least two on the original network. -/
theorem two_le_countP_mid {γ : Type} (l1 l2 : List γ) (x y : γ)
    (pred : γ → Bool) (hy : y ∈ l1 ++ l2) (hpy : pred y = true)
    (hpx : pred x = true) :
    2 ≤ (l1 ++ x :: l2).countP pred := by
  rw [countP_mid, if_pos hpx]
  have h1 : 0 < (l1 ++ l2).countP pred :=
    List.countP_pos_iff.mpr ⟨y, hy, hpy⟩
  omega

/-- Ghost updates that only ever write over `none` can only grow a support. -/
theorem supp_card_mono {n : Nat} {c c' : Cluster n} {T : Nat} {x : Fin n}
    (h : ∀ p, c'.gvote p T = c.gvote p T ∨ c.gvote p T = none) :
    (supp c T x).card ≤ (supp c' T x).card := by
  apply Finset.card_le_card
  intro p hp
  rw [mem_supp] at hp ⊢
  rcases h p with h1 | h1
  · rw [h1, hp]
  · rw [h1] at hp
    exact Option.noConfusion hp

theorem hrv_fields {α ε : Type} [DecidableEq α] (s : RaftState α ε)
    (m : RequestVoteMsg α) (now tnew : ℚ) :
    (handleRequestVote s m now tnew).1.peers = s.peers ∧
      (handleRequestVote s m now tnew).1.serverId = s.serverId := by
  rcases hrv_cases s m now tnew with ⟨_, h⟩ | ⟨_, _, h⟩ | ⟨_, h⟩ <;>
    rw [h] <;> exact ⟨rfl, rfl⟩

theorem hvr_fields {α ε : Type} (s : RaftState α ε) (m : VoteResponseMsg α) :
    (handleVoteResponse s m).peers = s.peers ∧
      (handleVoteResponse s m).serverId = s.serverId := by
  rcases hvr_cases s m with ⟨_, h⟩ | ⟨_, _, h⟩ | ⟨_, _, h⟩ | ⟨_, _, _, h⟩ |
    ⟨_, _, _, _, h⟩ | ⟨_, _, _, _, h⟩ <;> rw [h] <;> exact ⟨rfl, rfl⟩

theorem hae_fields {α ε : Type} (s : RaftState α ε)
    (m : AppendEntriesMsg α ε) (now tnew : ℚ) :
    (handleAppendEntries s m now tnew).1.peers = s.peers ∧
      (handleAppendEntries s m now tnew).1.serverId = s.serverId := by
  rcases hae_cases s m now tnew with ⟨_, h⟩ | ⟨_, h⟩ <;> rw [h] <;>
    exact ⟨rfl, rfl⟩

theorem haer_fields {α ε : Type} (s : RaftState α ε)
    (m : AppendEntriesRespMsg) :
    (handleAppendEntriesResponse s m).peers = s.peers ∧
      (handleAppendEntriesResponse s m).serverId = s.serverId := by
  rcases haer_cases s m with ⟨_, h⟩ | ⟨_, h⟩ <;> rw [h] <;> exact ⟨rfl, rfl⟩

theorem inv_deliver_aer {n : Nat} {c : Cluster n} (hInv : Inv c) (rr : Fin n)
    (m : AppendEntriesRespMsg)
    (l1 l2 : List (Fin n × RaftMsg (Fin n) FileOp)) (now tnew : ℚ)
    (hnet : c.network = l1 ++ (rr, RaftMsg.appendEntriesResponse m) :: l2) :
    Inv (deliverStep c rr (RaftMsg.appendEntriesResponse m) (l1 ++ l2)
      now tnew) := by
  have hstep : Step c (deliverStep c rr (RaftMsg.appendEntriesResponse m)
      (l1 ++ l2) now tnew) :=
    Step.deliver c rr _ l1 l2 now tnew hnet
  set c' := deliverStep c rr (RaftMsg.appendEntriesResponse m) (l1 ++ l2)
    now tnew with hc'
  have hnodes_rr : c'.nodes rr =
      handleAppendEntriesResponse (c.nodes rr) m := Function.update_same ..
  have hnodes_ne : ∀ r, r ≠ rr → c'.nodes r = c.nodes r :=
    fun r hr => Function.update_noteq hr ..
  have hsupp : ∀ T x, supp c' T x = supp c T x :=
    fun T x => supp_of_eq_at (fun p => rfl) x
  have hcnt : ∀ x T, cntVR c' x T ≤ cntVR c x T := by
    intro x T
    show (l1 ++ l2).countP (isGrantedVR x T) ≤
      c.network.countP (isGrantedVR x T)
    rw [hnet]
    exact countP_removed_le ..
  refine ⟨?_, ?_, ?_, ?_, ?_, ?_, ?_, ?_, ?_, ?_, ?_, ?_, ?_⟩
  · intro r
    by_cases hr : r = rr
    · subst hr
      rw [hnodes_rr, (haer_fields (c.nodes r) m).1]
      exact hInv.wfPeers r
    · rw [hnodes_ne r hr]
      exact hInv.wfPeers r
  · intro r
    by_cases hr : r = rr
    · subst hr
      rw [hnodes_rr, (haer_fields (c.nodes r) m).2]
      exact hInv.wfId r
    · rw [hnodes_ne r hr]
      exact hInv.wfId r
  · intro p T h
    exact le_trans (hInv.ghostTermSelf p T h) (step_term_mono hstep p)
  · intro p x T h
    exact le_trans (hInv.ghostTermCand p x T h) (step_term_mono hstep x)
  · intro dm hdm m' hm
    have hdm2 : dm ∈ l1 ++ l2 := hdm
    obtain ⟨h1, h2⟩ := hInv.rvBound dm (mem_of_mem_removed hnet hdm2) m' hm
    exact ⟨le_trans h1 (step_term_mono hstep m'.candidateId), h2⟩
  · intro dm hdm m' hm
    have hdm2 : dm ∈ l1 ++ l2 := hdm
    exact hInv.rvGhost dm (mem_of_mem_removed hnet hdm2) m' hm
  · intro T x p
    have h0 := hInv.rvUnique T x p
    rw [hnet] at h0
    exact le_trans (countP_removed_le l1 l2 _ (isRV T x p)) h0
  · intro dm hdm m' hm hg
    have hdm2 : dm ∈ l1 ++ l2 := hdm
    exact le_trans
      (hInv.vrBound dm (mem_of_mem_removed hnet hdm2) m' hm hg)
      (step_term_mono hstep dm.1)
  · intro dm hdm m' hm
    have hdm2 : dm ∈ l1 ++ l2 := hdm
    exact cannotCount_step hstep _ _
      (hInv.aeBound dm (mem_of_mem_removed hnet hdm2) m' hm)
  · intro r hcand
    by_cases hr : r = rr
    · subst hr
      rcases haer_cases (c.nodes r) m with ⟨h1, h⟩ | ⟨h1, h⟩
      · rw [hnodes_rr, h] at hcand
        exact nomatch hcand
      · rw [hnodes_rr, h] at hcand
        obtain ⟨hv, hg⟩ := hInv.votedSelf r hcand
        constructor
        · rw [hnodes_rr, h]
          exact hv
        · show c'.gvote r ((c'.nodes r).currentTerm) = some r
          rw [hnodes_rr, h]
          exact hg
    · rw [hnodes_ne r hr] at hcand
      obtain ⟨hv, hg⟩ := hInv.votedSelf r hcand
      constructor
      · rw [hnodes_ne r hr]
        exact hv
      · show c'.gvote r ((c'.nodes r).currentTerm) = some r
        rw [hnodes_ne r hr]
        exact hg
  · intro p x hg
    by_cases hp : p = rr
    · subst hp
      rcases haer_cases (c.nodes p) m with ⟨h1, h⟩ | ⟨h1, h⟩
      · rw [hnodes_rr, h] at hg
        have hg' : c.gvote p m.term = some x := hg
        have hts := hInv.ghostTermSelf p m.term
          (by rw [hg']; exact fun hc => Option.noConfusion hc)
        exact absurd hts (by omega)
      · rw [hnodes_rr, h] at hg
        have hg' : c.gvote p ((c.nodes p).currentTerm) = some x := hg
        obtain ⟨v, hvf, hval⟩ := hInv.ghostVoted p x hg'
        refine ⟨v, ?_, ?_⟩
        · rw [hnodes_rr, h]
          exact hvf
        · rcases hval with hval | hval
          · exact Or.inl hval
          · refine Or.inr ?_
            have hcc := cannotCount_step hstep v _ hval
            rw [hnodes_rr, h]
            exact hcc
    · have hg' : c.gvote p ((c.nodes p).currentTerm) = some x := by
        rw [hnodes_ne p hp] at hg
        exact hg
      obtain ⟨v, hvf, hval⟩ := hInv.ghostVoted p x hg'
      refine ⟨v, ?_, ?_⟩
      · rw [hnodes_ne p hp]
        exact hvf
      · rcases hval with hval | hval
        · exact Or.inl hval
        · refine Or.inr ?_
          have hcc := cannotCount_step hstep v _ hval
          rw [hnodes_ne p hp]
          exact hcc
  · intro r hcand
    by_cases hr : r = rr
    · subst hr
      rcases haer_cases (c.nodes r) m with ⟨h1, h⟩ | ⟨h1, h⟩
      · rw [hnodes_rr, h] at hcand
        exact nomatch hcand
      · rw [hnodes_rr, h] at hcand
        have hold := hInv.candCount r hcand
        have hc2 := hcnt r ((c.nodes r).currentTerm)
        show (c'.nodes r).votesReceived +
            cntVR c' r ((c'.nodes r).currentTerm) ≤
          (supp c' ((c'.nodes r).currentTerm) r).card
        rw [hnodes_rr, h, hsupp]
        omega
    · rw [hnodes_ne r hr] at hcand
      have hold := hInv.candCount r hcand
      have hc2 := hcnt r ((c.nodes r).currentTerm)
      show (c'.nodes r).votesReceived +
          cntVR c' r ((c'.nodes r).currentTerm) ≤
        (supp c' ((c'.nodes r).currentTerm) r).card
      rw [hnodes_ne r hr, hsupp]
      omega
  · intro r hlead
    by_cases hr : r = rr
    · subst hr
      rcases haer_cases (c.nodes r) m with ⟨h1, h⟩ | ⟨h1, h⟩
      · rw [hnodes_rr, h] at hlead
        exact nomatch hlead
      · rw [hnodes_rr, h] at hlead
        show n / 2 + 1 ≤ (supp c' ((c'.nodes r).currentTerm) r).card
        rw [hnodes_rr, h, hsupp]
        exact hInv.leaderMaj r hlead
    · rw [hnodes_ne r hr] at hlead
      show n / 2 + 1 ≤ (supp c' ((c'.nodes r).currentTerm) r).card
      rw [hnodes_ne r hr, hsupp]
      exact hInv.leaderMaj r hlead

theorem inv_deliver_vr {n : Nat} {c : Cluster n} (hInv : Inv c) (rr : Fin n)
    (m : VoteResponseMsg (Fin n))
    (l1 l2 : List (Fin n × RaftMsg (Fin n) FileOp)) (now tnew : ℚ)
    (hnet : c.network = l1 ++ (rr, RaftMsg.voteResponse m) :: l2) :
    Inv (deliverStep c rr (RaftMsg.voteResponse m) (l1 ++ l2) now tnew) := by
  have hstep : Step c (deliverStep c rr (RaftMsg.voteResponse m)
      (l1 ++ l2) now tnew) :=
    Step.deliver c rr _ l1 l2 now tnew hnet
  set c' := deliverStep c rr (RaftMsg.voteResponse m) (l1 ++ l2) now tnew
    with hc'
  have hnodes_rr : c'.nodes rr = handleVoteResponse (c.nodes rr) m :=
    Function.update_same ..
  have hnodes_ne : ∀ r, r ≠ rr → c'.nodes r = c.nodes r :=
    fun r hr => Function.update_noteq hr ..
  have hsupp : ∀ T x, supp c' T x = supp c T x :=
    fun T x => supp_of_eq_at (fun p => rfl) x
  have hcnt : ∀ x T, cntVR c' x T ≤ cntVR c x T := by
    intro x T
    show (l1 ++ l2).countP (isGrantedVR x T) ≤
      c.network.countP (isGrantedVR x T)
    rw [hnet]
    exact countP_removed_le ..
  refine ⟨?_, ?_, ?_, ?_, ?_, ?_, ?_, ?_, ?_, ?_, ?_, ?_, ?_⟩
  · intro r
    by_cases hr : r = rr
    · subst hr
      rw [hnodes_rr, (hvr_fields (c.nodes r) m).1]
      exact hInv.wfPeers r
    · rw [hnodes_ne r hr]
      exact hInv.wfPeers r
  · intro r
    by_cases hr : r = rr
    · subst hr
      rw [hnodes_rr, (hvr_fields (c.nodes r) m).2]
      exact hInv.wfId r
    · rw [hnodes_ne r hr]
      exact hInv.wfId r
  · intro p T h
    exact le_trans (hInv.ghostTermSelf p T h) (step_term_mono hstep p)
  · intro p x T h
    exact le_trans (hInv.ghostTermCand p x T h) (step_term_mono hstep x)
  · intro dm hdm m' hm
    have hdm2 : dm ∈ l1 ++ l2 := hdm
    obtain ⟨h1, h2⟩ := hInv.rvBound dm (mem_of_mem_removed hnet hdm2) m' hm
    exact ⟨le_trans h1 (step_term_mono hstep m'.candidateId), h2⟩
  · intro dm hdm m' hm
    have hdm2 : dm ∈ l1 ++ l2 := hdm
    exact hInv.rvGhost dm (mem_of_mem_removed hnet hdm2) m' hm
  · intro T x p
    have h0 := hInv.rvUnique T x p
    rw [hnet] at h0
    exact le_trans (countP_removed_le l1 l2 _ (isRV T x p)) h0
  · intro dm hdm m' hm hg
    have hdm2 : dm ∈ l1 ++ l2 := hdm
    exact le_trans
      (hInv.vrBound dm (mem_of_mem_removed hnet hdm2) m' hm hg)
      (step_term_mono hstep dm.1)
  · intro dm hdm m' hm
    have hdm2 : dm ∈ l1 ++ l2 := hdm
    exact cannotCount_step hstep _ _
      (hInv.aeBound dm (mem_of_mem_removed hnet hdm2) m' hm)
  · intro r hcand
    by_cases hr : r = rr
    · subst hr
      rcases hvr_cases (c.nodes r) m with ⟨hnc, h⟩ | ⟨hc0, h1, h⟩ |
        ⟨hc0, h1, h⟩ | ⟨hc0, h1, h2, h⟩ | ⟨hc0, h1, h2, h3, h⟩ |
        ⟨hc0, h1, h2, h3, h⟩
      · rw [hnodes_rr, h] at hcand
        exact absurd hcand hnc
      · rw [hnodes_rr, h] at hcand
        exact nomatch hcand
      · rw [hnodes_rr, h] at hcand
        obtain ⟨hv, hg⟩ := hInv.votedSelf r hcand
        constructor
        · rw [hnodes_rr, h]
          exact hv
        · show c'.gvote r ((c'.nodes r).currentTerm) = some r
          rw [hnodes_rr, h]
          exact hg
      · rw [hnodes_rr, h] at hcand
        obtain ⟨hv, hg⟩ := hInv.votedSelf r hcand
        constructor
        · rw [hnodes_rr, h]
          exact hv
        · show c'.gvote r ((c'.nodes r).currentTerm) = some r
          rw [hnodes_rr, h]
          exact hg
      · rw [hnodes_rr, h] at hcand
        exact nomatch hcand
      · rw [hnodes_rr, h] at hcand
        have hcand' : (c.nodes r).state = Role.candidate := hcand
        obtain ⟨hv, hg⟩ := hInv.votedSelf r hcand'
        constructor
        · rw [hnodes_rr, h]
          exact hv
        · show c'.gvote r ((c'.nodes r).currentTerm) = some r
          rw [hnodes_rr, h]
          exact hg
    · rw [hnodes_ne r hr] at hcand
      obtain ⟨hv, hg⟩ := hInv.votedSelf r hcand
      constructor
      · rw [hnodes_ne r hr]
        exact hv
      · show c'.gvote r ((c'.nodes r).currentTerm) = some r
        rw [hnodes_ne r hr]
        exact hg
  · intro p x hg
    by_cases hp : p = rr
    · subst hp
      rcases hvr_cases (c.nodes p) m with ⟨hnc, h⟩ | ⟨hc0, h1, h⟩ |
        ⟨hc0, h1, h⟩ | ⟨hc0, h1, h2, h⟩ | ⟨hc0, h1, h2, h3, h⟩ |
        ⟨hc0, h1, h2, h3, h⟩
      · rw [hnodes_rr, h] at hg
        obtain ⟨v, hvf, hval⟩ := hInv.ghostVoted p x hg
        refine ⟨v, ?_, ?_⟩
        · rw [hnodes_rr, h]
          exact hvf
        · rcases hval with hval | hval
          · exact Or.inl hval
          · refine Or.inr ?_
            have hcc := cannotCount_step hstep v _ hval
            rw [hnodes_rr, h]
            exact hcc
      · rw [hnodes_rr, h] at hg
        have hg' : c.gvote p m.term = some x := hg
        have hts := hInv.ghostTermSelf p m.term
          (by rw [hg']; exact fun hc => Option.noConfusion hc)
        exact absurd hts (by omega)
      · rw [hnodes_rr, h] at hg
        obtain ⟨v, hvf, hval⟩ := hInv.ghostVoted p x hg
        refine ⟨v, ?_, ?_⟩
        · rw [hnodes_rr, h]
          exact hvf
        · rcases hval with hval | hval
          · exact Or.inl hval
          · refine Or.inr ?_
            have hcc := cannotCount_step hstep v _ hval
            rw [hnodes_rr, h]
            exact hcc
      · rw [hnodes_rr, h] at hg
        obtain ⟨v, hvf, hval⟩ := hInv.ghostVoted p x hg
        refine ⟨v, ?_, ?_⟩
        · rw [hnodes_rr, h]
          exact hvf
        · rcases hval with hval | hval
          · exact Or.inl hval
          · refine Or.inr ?_
            have hcc := cannotCount_step hstep v _ hval
            rw [hnodes_rr, h]
            exact hcc
      · rw [hnodes_rr, h] at hg
        have hg' : c.gvote p ((c.nodes p).currentTerm) = some x := hg
        obtain ⟨v, hvf, hval⟩ := hInv.ghostVoted p x hg'
        refine ⟨v, ?_, ?_⟩
        · rw [hnodes_rr, h]
          exact hvf
        · rcases hval with hval | hval
          · exact Or.inl hval
          · refine Or.inr ?_
            have hcc := cannotCount_step hstep v _ hval
            rw [hnodes_rr, h]
            exact hcc
      · rw [hnodes_rr, h] at hg
        have hg' : c.gvote p ((c.nodes p).currentTerm) = some x := hg
        obtain ⟨v, hvf, hval⟩ := hInv.ghostVoted p x hg'
        refine ⟨v, ?_, ?_⟩
        · rw [hnodes_rr, h]
          exact hvf
        · rcases hval with hval | hval
          · exact Or.inl hval
          · refine Or.inr ?_
            have hcc := cannotCount_step hstep v _ hval
            rw [hnodes_rr, h]
            exact hcc
    · have hg' : c.gvote p ((c.nodes p).currentTerm) = some x := by
        rw [hnodes_ne p hp] at hg
        exact hg
      obtain ⟨v, hvf, hval⟩ := hInv.ghostVoted p x hg'
      refine ⟨v, ?_, ?_⟩
      · rw [hnodes_ne p hp]
        exact hvf
      · rcases hval with hval | hval
        · exact Or.inl hval
        · refine Or.inr ?_
          have hcc := cannotCount_step hstep v _ hval
          rw [hnodes_ne p hp]
          exact hcc
  · intro r hcand
    by_cases hr : r = rr
    · subst hr
      rcases hvr_cases (c.nodes r) m with ⟨hnc, h⟩ | ⟨hc0, h1, h⟩ |
        ⟨hc0, h1, h⟩ | ⟨hc0, h1, h2, h⟩ | ⟨hc0, h1, h2, h3, h⟩ |
        ⟨hc0, h1, h2, h3, h⟩
      · rw [hnodes_rr, h] at hcand
        exact absurd hcand hnc
      · rw [hnodes_rr, h] at hcand
        exact nomatch hcand
      · rw [hnodes_rr, h] at hcand
        have hold := hInv.candCount r hcand
        have hc2 := hcnt r ((c.nodes r).currentTerm)
        show (c'.nodes r).votesReceived +
            cntVR c' r ((c'.nodes r).currentTerm) ≤
          (supp c' ((c'.nodes r).currentTerm) r).card
        rw [hnodes_rr, h, hsupp]
        omega
      · rw [hnodes_rr, h] at hcand
        have hold := hInv.candCount r hcand
        have hc2 := hcnt r ((c.nodes r).currentTerm)
        show (c'.nodes r).votesReceived +
            cntVR c' r ((c'.nodes r).currentTerm) ≤
          (supp c' ((c'.nodes r).currentTerm) r).card
        rw [hnodes_rr, h, hsupp]
        omega
      · rw [hnodes_rr, h] at hcand
        exact nomatch hcand
      · rw [hnodes_rr, h] at hcand
        have hold := hInv.candCount r hc0
        have hD : isGrantedVR r ((c.nodes r).currentTerm)
            ((r, RaftMsg.voteResponse m) :
              Fin n × RaftMsg (Fin n) FileOp) = true := by
          simp [isGrantedVR, h1, h2]
        have hceq : cntVR c r ((c.nodes r).currentTerm) =
            (l1 ++ l2).countP
              (isGrantedVR r ((c.nodes r).currentTerm)) + 1 := by
          show c.network.countP _ = _
          rw [hnet, countP_mid, if_pos hD]
        have hceq' : cntVR c' r ((c.nodes r).currentTerm) =
            (l1 ++ l2).countP
              (isGrantedVR r ((c.nodes r).currentTerm)) := rfl
        show (c'.nodes r).votesReceived +
            cntVR c' r ((c'.nodes r).currentTerm) ≤
          (supp c' ((c'.nodes r).currentTerm) r).card
        rw [hnodes_rr, h]
        show (c.nodes r).votesReceived + 1 +
            cntVR c' r ((c.nodes r).currentTerm) ≤
          (supp c' ((c.nodes r).currentTerm) r).card
        rw [hsupp]
        omega
    · rw [hnodes_ne r hr] at hcand
      have hold := hInv.candCount r hcand
      have hc2 := hcnt r ((c.nodes r).currentTerm)
      show (c'.nodes r).votesReceived +
          cntVR c' r ((c'.nodes r).currentTerm) ≤
        (supp c' ((c'.nodes r).currentTerm) r).card
      rw [hnodes_ne r hr, hsupp]
      omega
  · intro r hlead
    by_cases hr : r = rr
    · subst hr
      rcases hvr_cases (c.nodes r) m with ⟨hnc, h⟩ | ⟨hc0, h1, h⟩ |
        ⟨hc0, h1, h⟩ | ⟨hc0, h1, h2, h⟩ | ⟨hc0, h1, h2, h3, h⟩ |
        ⟨hc0, h1, h2, h3, h⟩
      · rw [hnodes_rr, h] at hlead
        show n / 2 + 1 ≤ (supp c' ((c'.nodes r).currentTerm) r).card
        rw [hnodes_rr, h, hsupp]
        exact hInv.leaderMaj r hlead
      · rw [hnodes_rr, h] at hlead
        exact nomatch hlead
      · rw [hnodes_rr, h] at hlead
        show n / 2 + 1 ≤ (supp c' ((c'.nodes r).currentTerm) r).card
        rw [hnodes_rr, h, hsupp]
        exact hInv.leaderMaj r hlead
      · rw [hnodes_rr, h] at hlead
        show n / 2 + 1 ≤ (supp c' ((c'.nodes r).currentTerm) r).card
        rw [hnodes_rr, h, hsupp]
        exact hInv.leaderMaj r hlead
      · have hold := hInv.candCount r hc0
        have hthr : majorityThreshold (c.nodes r) = n / 2 := by
          unfold majorityThreshold
          rw [hInv.wfPeers r, peers_length_eq]
          have hn : 0 < n := r.pos
          omega
        rw [hthr] at h3
        have hD : isGrantedVR r ((c.nodes r).currentTerm)
            ((r, RaftMsg.voteResponse m) :
              Fin n × RaftMsg (Fin n) FileOp) = true := by
          simp [isGrantedVR, h1, h2]
        have hceq : cntVR c r ((c.nodes r).currentTerm) =
            (l1 ++ l2).countP
              (isGrantedVR r ((c.nodes r).currentTerm)) + 1 := by
          show c.network.countP _ = _
          rw [hnet, countP_mid, if_pos hD]
        show n / 2 + 1 ≤ (supp c' ((c'.nodes r).currentTerm) r).card
        rw [hnodes_rr, h]
        show n / 2 + 1 ≤ (supp c' ((c.nodes r).currentTerm) r).card
        rw [hsupp]
        omega
      · rw [hnodes_rr, h] at hlead
        have hlead' : (c.nodes r).state = Role.leader := hlead
        show n / 2 + 1 ≤ (supp c' ((c'.nodes r).currentTerm) r).card
        rw [hnodes_rr, h, hsupp]
        exact hInv.leaderMaj r hlead'
    · rw [hnodes_ne r hr] at hlead
      show n / 2 + 1 ≤ (supp c' ((c'.nodes r).currentTerm) r).card
      rw [hnodes_ne r hr, hsupp]
      exact hInv.leaderMaj r hlead

theorem inv_deliver_ae {n : Nat} {c : Cluster n} (hInv : Inv c) (rr : Fin n)
    (m : AppendEntriesMsg (Fin n) FileOp)
    (l1 l2 : List (Fin n × RaftMsg (Fin n) FileOp)) (now tnew : ℚ)
    (hnet : c.network = l1 ++ (rr, RaftMsg.appendEntries m) :: l2) :
    Inv (deliverStep c rr (RaftMsg.appendEntries m) (l1 ++ l2) now tnew) := by
  have hstep : Step c (deliverStep c rr (RaftMsg.appendEntries m)
      (l1 ++ l2) now tnew) :=
    Step.deliver c rr _ l1 l2 now tnew hnet
  have hmem : ((rr, RaftMsg.appendEntries m) :
      Fin n × RaftMsg (Fin n) FileOp) ∈ c.network := by
    rw [hnet]
    exact List.mem_append.mpr (Or.inr (List.mem_cons_self _ _))
  set c' := deliverStep c rr (RaftMsg.appendEntries m) (l1 ++ l2) now tnew
    with hc'
  have hnodes_rr : c'.nodes rr =
      (handleAppendEntries (c.nodes rr) m now tnew).1 :=
    Function.update_same ..
  have hnodes_ne : ∀ r, r ≠ rr → c'.nodes r = c.nodes r :=
    fun r hr => Function.update_noteq hr ..
  have hsupp : ∀ T x, supp c' T x = supp c T x :=
    fun T x => supp_of_eq_at (fun p => rfl) x
  have hnet2 : c'.network = (l1 ++ l2) ++
      [((handleAppendEntries (c.nodes rr) m now tnew).2.1,
        RaftMsg.appendEntriesResponse
          (handleAppendEntries (c.nodes rr) m now tnew).2.2)] := rfl
  have hz_rv : ∀ (T : Nat) (x p : Fin n), List.countP (isRV T x p)
      [((handleAppendEntries (c.nodes rr) m now tnew).2.1,
        RaftMsg.appendEntriesResponse
          (handleAppendEntries (c.nodes rr) m now tnew).2.2)] = 0 := by
    intro T x p
    rw [countP_single]
    simp [isRV]
  have hz_vr : ∀ (x : Fin n) (T : Nat), List.countP (isGrantedVR x T)
      [((handleAppendEntries (c.nodes rr) m now tnew).2.1,
        RaftMsg.appendEntriesResponse
          (handleAppendEntries (c.nodes rr) m now tnew).2.2)] = 0 := by
    intro x T
    rw [countP_single]
    simp [isGrantedVR]
  have hcnt : ∀ x T, cntVR c' x T ≤ cntVR c x T := by
    intro x T
    show c'.network.countP (isGrantedVR x T) ≤
      c.network.countP (isGrantedVR x T)
    rw [hnet2, List.countP_append, hz_vr, Nat.add_zero, hnet]
    exact countP_removed_le ..
  refine ⟨?_, ?_, ?_, ?_, ?_, ?_, ?_, ?_, ?_, ?_, ?_, ?_, ?_⟩
  · intro r
    by_cases hr : r = rr
    · subst hr
      rw [hnodes_rr, (hae_fields (c.nodes r) m now tnew).1]
      exact hInv.wfPeers r
    · rw [hnodes_ne r hr]
      exact hInv.wfPeers r
  · intro r
    by_cases hr : r = rr
    · subst hr
      rw [hnodes_rr, (hae_fields (c.nodes r) m now tnew).2]
      exact hInv.wfId r
    · rw [hnodes_ne r hr]
      exact hInv.wfId r
  · intro p T h
    exact le_trans (hInv.ghostTermSelf p T h) (step_term_mono hstep p)
  · intro p x T h
    exact le_trans (hInv.ghostTermCand p x T h) (step_term_mono hstep x)
  · intro dm hdm m' hm
    rw [hnet2] at hdm
    rcases List.mem_append.mp hdm with hdm | hdm
    · obtain ⟨h1, h2⟩ := hInv.rvBound dm (mem_of_mem_removed hnet hdm) m' hm
      exact ⟨le_trans h1 (step_term_mono hstep m'.candidateId), h2⟩
    · rw [List.mem_singleton] at hdm
      subst hdm
      cases hm
  · intro dm hdm m' hm
    rw [hnet2] at hdm
    rcases List.mem_append.mp hdm with hdm | hdm
    · exact hInv.rvGhost dm (mem_of_mem_removed hnet hdm) m' hm
    · rw [List.mem_singleton] at hdm
      subst hdm
      cases hm
  · intro T x p
    have h0 := hInv.rvUnique T x p
    rw [hnet] at h0
    show c'.network.countP (isRV T x p) ≤ 1
    rw [hnet2, List.countP_append, hz_rv, Nat.add_zero]
    exact le_trans (countP_removed_le l1 l2 _ (isRV T x p)) h0
  · intro dm hdm m' hm hg
    rw [hnet2] at hdm
    rcases List.mem_append.mp hdm with hdm | hdm
    · exact le_trans
        (hInv.vrBound dm (mem_of_mem_removed hnet hdm) m' hm hg)
        (step_term_mono hstep dm.1)
    · rw [List.mem_singleton] at hdm
      subst hdm
      cases hm
  · intro dm hdm m' hm
    rw [hnet2] at hdm
    rcases List.mem_append.mp hdm with hdm | hdm
    · exact cannotCount_step hstep _ _
        (hInv.aeBound dm (mem_of_mem_removed hnet hdm) m' hm)
    · rw [List.mem_singleton] at hdm
      subst hdm
      cases hm
  · intro r hcand
    by_cases hr : r = rr
    · subst hr
      rcases hae_cases (c.nodes r) m now tnew with ⟨h1, h⟩ | ⟨h1, h⟩
      · rw [hnodes_rr, h] at hcand
        exact nomatch hcand
      · rw [hnodes_rr, h] at hcand
        obtain ⟨hv, hg⟩ := hInv.votedSelf r hcand
        constructor
        · rw [hnodes_rr, h]
          exact hv
        · show c'.gvote r ((c'.nodes r).currentTerm) = some r
          rw [hnodes_rr, h]
          exact hg
    · rw [hnodes_ne r hr] at hcand
      obtain ⟨hv, hg⟩ := hInv.votedSelf r hcand
      constructor
      · rw [hnodes_ne r hr]
        exact hv
      · show c'.gvote r ((c'.nodes r).currentTerm) = some r
        rw [hnodes_ne r hr]
        exact hg
  · intro p x hg
    by_cases hp : p = rr
    · subst hp
      rcases hae_cases (c.nodes p) m now tnew with ⟨h1, h⟩ | ⟨h1, h⟩
      · have hcc_c : cannotCount c m.leaderId m.term :=
          hInv.aeBound (p, RaftMsg.appendEntries m) hmem m rfl
        have hcc := cannotCount_step hstep m.leaderId m.term hcc_c
        refine ⟨m.leaderId, ?_, Or.inr ?_⟩
        · rw [hnodes_rr, h]
        · rw [hnodes_rr, h]
          exact hcc
      · rw [hnodes_rr, h] at hg
        have hg' : c.gvote p ((c.nodes p).currentTerm) = some x := hg
        obtain ⟨v, hvf, hval⟩ := hInv.ghostVoted p x hg'
        refine ⟨v, ?_, ?_⟩
        · rw [hnodes_rr, h]
          exact hvf
        · rcases hval with hval | hval
          · exact Or.inl hval
          · refine Or.inr ?_
            have hcc := cannotCount_step hstep v _ hval
            rw [hnodes_rr, h]
            exact hcc
    · have hg' : c.gvote p ((c.nodes p).currentTerm) = some x := by
        rw [hnodes_ne p hp] at hg
        exact hg
      obtain ⟨v, hvf, hval⟩ := hInv.ghostVoted p x hg'
      refine ⟨v, ?_, ?_⟩
      · rw [hnodes_ne p hp]
        exact hvf
      · rcases hval with hval | hval
        · exact Or.inl hval
        · refine Or.inr ?_
          have hcc := cannotCount_step hstep v _ hval
          rw [hnodes_ne p hp]
          exact hcc
  · intro r hcand
    by_cases hr : r = rr
    · subst hr
      rcases hae_cases (c.nodes r) m now tnew with ⟨h1, h⟩ | ⟨h1, h⟩
      · rw [hnodes_rr, h] at hcand
        exact nomatch hcand
      · rw [hnodes_rr, h] at hcand
        have hold := hInv.candCount r hcand
        have hc2 := hcnt r ((c.nodes r).currentTerm)
        show (c'.nodes r).votesReceived +
            cntVR c' r ((c'.nodes r).currentTerm) ≤
          (supp c' ((c'.nodes r).currentTerm) r).card
        rw [hnodes_rr, h]
        show (c.nodes r).votesReceived +
            cntVR c' r ((c.nodes r).currentTerm) ≤
          (supp c' ((c.nodes r).currentTerm) r).card
        rw [hsupp]
        omega
    · rw [hnodes_ne r hr] at hcand
      have hold := hInv.candCount r hcand
      have hc2 := hcnt r ((c.nodes r).currentTerm)
      show (c'.nodes r).votesReceived +
          cntVR c' r ((c'.nodes r).currentTerm) ≤
        (supp c' ((c'.nodes r).currentTerm) r).card
      rw [hnodes_ne r hr, hsupp]
      omega
  · intro r hlead
    by_cases hr : r = rr
    · subst hr
      rcases hae_cases (c.nodes r) m now tnew with ⟨h1, h⟩ | ⟨h1, h⟩
      · rw [hnodes_rr, h] at hlead
        exact nomatch hlead
      · rw [hnodes_rr, h] at hlead
        show n / 2 + 1 ≤ (supp c' ((c'.nodes r).currentTerm) r).card
        rw [hnodes_rr, h, hsupp]
        exact hInv.leaderMaj r hlead
    · rw [hnodes_ne r hr] at hlead
      show n / 2 + 1 ≤ (supp c' ((c'.nodes r).currentTerm) r).card
      rw [hnodes_ne r hr, hsupp]
      exact hInv.leaderMaj r hlead

theorem inv_deliver_rv {n : Nat} {c : Cluster n} (hInv : Inv c) (rr : Fin n)
    (m : RequestVoteMsg (Fin n))
    (l1 l2 : List (Fin n × RaftMsg (Fin n) FileOp)) (now tnew : ℚ)
    (hnet : c.network = l1 ++ (rr, RaftMsg.requestVote m) :: l2) :
    Inv (deliverStep c rr (RaftMsg.requestVote m) (l1 ++ l2) now tnew) := by
  have hstep : Step c (deliverStep c rr (RaftMsg.requestVote m)
      (l1 ++ l2) now tnew) :=
    Step.deliver c rr _ l1 l2 now tnew hnet
  have hmem : ((rr, RaftMsg.requestVote m) :
      Fin n × RaftMsg (Fin n) FileOp) ∈ c.network := by
    rw [hnet]
    exact List.mem_append.mpr (Or.inr (List.mem_cons_self _ _))
  have hcand_term : m.term ≤ (c.nodes m.candidateId).currentTerm :=
    (hInv.rvBound (rr, RaftMsg.requestVote m) hmem m rfl).1
  have hcand_ne : m.candidateId ≠ rr :=
    (hInv.rvBound (rr, RaftMsg.requestVote m) hmem m rfl).2
  have hghost_ne : c.gvote rr m.term ≠ some m.candidateId :=
    hInv.rvGhost (rr, RaftMsg.requestVote m) hmem m rfl
  set c' := deliverStep c rr (RaftMsg.requestVote m) (l1 ++ l2) now tnew
    with hc'
  have hnodes_rr : c'.nodes rr =
      (handleRequestVote (c.nodes rr) m now tnew).1 :=
    Function.update_same ..
  have hnodes_ne : ∀ r, r ≠ rr → c'.nodes r = c.nodes r :=
    fun r hr => Function.update_noteq hr ..
  have hgv : ∀ p T, c'.gvote p T =
      if (handleRequestVote (c.nodes rr) m now tnew).2.2.voteGranted = true ∧
          m.term = (c.nodes rr).currentTerm ∧ p = rr ∧
          T = (c.nodes rr).currentTerm ∧ c.gvote rr T = none then
        some m.candidateId
      else c.gvote p T := fun p T => rfl
  have hnet2 : c'.network = (l1 ++ l2) ++
      [((handleRequestVote (c.nodes rr) m now tnew).2.1,
        RaftMsg.voteResponse
          (handleRequestVote (c.nodes rr) m now tnew).2.2)] := rfl
  have hgv_mono : ∀ p T,
      c'.gvote p T = c.gvote p T ∨ c.gvote p T = none := by
    intro p T
    rw [hgv]
    by_cases hcond :
        (handleRequestVote (c.nodes rr) m now tnew).2.2.voteGranted = true ∧
          m.term = (c.nodes rr).currentTerm ∧ p = rr ∧
          T = (c.nodes rr).currentTerm ∧ c.gvote rr T = none
    · right
      rw [hcond.2.2.1]
      exact hcond.2.2.2.2
    · left
      rw [if_neg hcond]
  have hsupp_mono : ∀ (T : Nat) (x : Fin n),
      (supp c T x).card ≤ (supp c' T x).card :=
    fun T x => supp_card_mono (fun p => hgv_mono p T)
  have hz_rv_single : ∀ (T : Nat) (x p : Fin n), List.countP (isRV T x p)
      [((handleRequestVote (c.nodes rr) m now tnew).2.1,
        RaftMsg.voteResponse
          (handleRequestVote (c.nodes rr) m now tnew).2.2)] = 0 := by
    intro T x p
    rw [countP_single]
    simp [isRV]
  refine ⟨?_, ?_, ?_, ?_, ?_, ?_, ?_, ?_, ?_, ?_, ?_, ?_, ?_⟩
  · intro r
    by_cases hr : r = rr
    · subst hr
      rw [hnodes_rr, (hrv_fields (c.nodes r) m now tnew).1]
      exact hInv.wfPeers r
    · rw [hnodes_ne r hr]
      exact hInv.wfPeers r
  · intro r
    by_cases hr : r = rr
    · subst hr
      rw [hnodes_rr, (hrv_fields (c.nodes r) m now tnew).2]
      exact hInv.wfId r
    · rw [hnodes_ne r hr]
      exact hInv.wfId r
  · intro p T h
    rw [hgv] at h
    by_cases hcond :
        (handleRequestVote (c.nodes rr) m now tnew).2.2.voteGranted = true ∧
          m.term = (c.nodes rr).currentTerm ∧ p = rr ∧
          T = (c.nodes rr).currentTerm ∧ c.gvote rr T = none
    · obtain ⟨hg1, hg2, hg3, hg4, hg5⟩ := hcond
      rw [hg3, hg4, hnodes_rr]
      exact hrv_term_mono ..
    · rw [if_neg hcond] at h
      exact le_trans (hInv.ghostTermSelf p T h) (step_term_mono hstep p)
  · intro p x T h
    rw [hgv] at h
    by_cases hcond :
        (handleRequestVote (c.nodes rr) m now tnew).2.2.voteGranted = true ∧
          m.term = (c.nodes rr).currentTerm ∧ p = rr ∧
          T = (c.nodes rr).currentTerm ∧ c.gvote rr T = none
    · rw [if_pos hcond] at h
      have hx : m.candidateId = x := Option.some_inj.mp h
      obtain ⟨hg1, hg2, hg3, hg4, hg5⟩ := hcond
      rw [hg4, ← hg2, ← hx]
      exact le_trans hcand_term (step_term_mono hstep m.candidateId)
    · rw [if_neg hcond] at h
      exact le_trans (hInv.ghostTermCand p x T h) (step_term_mono hstep x)
  · intro dm hdm m' hm
    rw [hnet2] at hdm
    rcases List.mem_append.mp hdm with hdm | hdm
    · obtain ⟨h1, h2⟩ := hInv.rvBound dm (mem_of_mem_removed hnet hdm) m' hm
      exact ⟨le_trans h1 (step_term_mono hstep m'.candidateId), h2⟩
    · rw [List.mem_singleton] at hdm
      subst hdm
      cases hm
  · intro dm hdm m' hm
    rw [hnet2] at hdm
    rcases List.mem_append.mp hdm with hdm | hdm
    · rw [hgv]
      by_cases hcond :
          (handleRequestVote (c.nodes rr) m now tnew).2.2.voteGranted
              = true ∧
            m.term = (c.nodes rr).currentTerm ∧ dm.1 = rr ∧
            m'.term = (c.nodes rr).currentTerm ∧
            c.gvote rr m'.term = none
      · rw [if_pos hcond]
        intro hEq
        have hcand_eq : m.candidateId = m'.candidateId :=
          Option.some_inj.mp hEq
        obtain ⟨hg1, hg2, hg3, hg4, hg5⟩ := hcond
        have hpx : isRV ((c.nodes rr).currentTerm) m.candidateId rr
            ((rr, RaftMsg.requestVote m) :
              Fin n × RaftMsg (Fin n) FileOp) = true := by
          simp only [isRV, decide_eq_true_eq]
          exact ⟨trivial, hg2, trivial⟩
        have hpy : isRV ((c.nodes rr).currentTerm) m.candidateId rr dm
            = true := by
          obtain ⟨d1, d2⟩ := dm
          have hd2 : d2 = RaftMsg.requestVote m' := hm
          subst hd2
          have hd1 : d1 = rr := hg3
          subst hd1
          simp only [isRV, decide_eq_true_eq]
          exact ⟨trivial, hg4, hcand_eq.symm⟩
        have h2c := two_le_countP_mid l1 l2 (rr, RaftMsg.requestVote m)
          dm _ hdm hpy hpx
        have hle := hInv.rvUnique ((c.nodes rr).currentTerm)
          m.candidateId rr
        rw [hnet] at hle
        omega
      · rw [if_neg hcond]
        exact hInv.rvGhost dm (mem_of_mem_removed hnet hdm) m' hm
    · rw [List.mem_singleton] at hdm
      subst hdm
      cases hm
  · intro T x p
    have h0 := hInv.rvUnique T x p
    rw [hnet] at h0
    show c'.network.countP (isRV T x p) ≤ 1
    rw [hnet2, List.countP_append, hz_rv_single, Nat.add_zero]
    exact le_trans (countP_removed_le l1 l2 _ (isRV T x p)) h0
  · intro dm hdm m' hm hg
    rw [hnet2] at hdm
    rcases List.mem_append.mp hdm with hdm | hdm
    · exact le_trans
        (hInv.vrBound dm (mem_of_mem_removed hnet hdm) m' hm hg)
        (step_term_mono hstep dm.1)
    · rw [List.mem_singleton] at hdm
      subst hdm
      cases hm
      rcases hrv_cases (c.nodes rr) m now tnew with ⟨h1, h⟩ |
        ⟨h1, h2, h⟩ | ⟨h1, h⟩
      · show (handleRequestVote (c.nodes rr) m now tnew).2.2.term ≤
          (c'.nodes
            ((handleRequestVote (c.nodes rr) m now tnew).2.1)).currentTerm
        rw [h]
        show (c.nodes rr).currentTerm ≤
          (c'.nodes m.candidateId).currentTerm
        exact le_trans (le_trans (le_of_lt h1) hcand_term)
          (step_term_mono hstep m.candidateId)
      · show (handleRequestVote (c.nodes rr) m now tnew).2.2.term ≤
          (c'.nodes
            ((handleRequestVote (c.nodes rr) m now tnew).2.1)).currentTerm
        rw [h]
        show (c.nodes rr).currentTerm ≤
          (c'.nodes m.candidateId).currentTerm
        rw [← h1]
        exact le_trans hcand_term (step_term_mono hstep m.candidateId)
      · rw [h] at hg
        exact nomatch hg
  · intro dm hdm m' hm
    rw [hnet2] at hdm
    rcases List.mem_append.mp hdm with hdm | hdm
    · exact cannotCount_step hstep _ _
        (hInv.aeBound dm (mem_of_mem_removed hnet hdm) m' hm)
    · rw [List.mem_singleton] at hdm
      subst hdm
      cases hm
  · intro r hcand
    by_cases hr : r = rr
    · subst hr
      rcases hrv_cases (c.nodes r) m now tnew with ⟨h1, h⟩ |
        ⟨h1, h2, h⟩ | ⟨h1, h⟩
      · rw [hnodes_rr, h] at hcand
        exact nomatch hcand
      · rw [hnodes_rr, h] at hcand
        have hcand' : (c.nodes r).state = Role.candidate := hcand
        obtain ⟨hv, hgself⟩ := hInv.votedSelf r hcand'
        rcases h2 with h2 | h2
        · rw [hv] at h2
          exact Option.noConfusion h2
        · rw [hv] at h2
          exact absurd (Option.some_inj.mp h2).symm hcand_ne
      · rw [hnodes_rr, h] at hcand
        have hgrf :
            (handleRequestVote (c.nodes r) m now tnew).2.2.voteGranted
              = false := by
          rw [h]
        obtain ⟨hv, hgself⟩ := hInv.votedSelf r hcand
        constructor
        · rw [hnodes_rr, h]
          exact hv
        · show c'.gvote r ((c'.nodes r).currentTerm) = some r
          rw [hnodes_rr, h]
          rw [hgv, if_neg (fun hcond => by
            rw [hgrf] at hcond
            exact Bool.noConfusion hcond.1)]
          exact hgself
    · rw [hnodes_ne r hr] at hcand
      obtain ⟨hv, hgself⟩ := hInv.votedSelf r hcand
      constructor
      · rw [hnodes_ne r hr]
        exact hv
      · show c'.gvote r ((c'.nodes r).currentTerm) = some r
        rw [hnodes_ne r hr, hgv,
          if_neg (fun hcond => hr hcond.2.2.1)]
        exact hgself
  · intro p x hg
    by_cases hp : p = rr
    · subst hp
      rcases hrv_cases (c.nodes p) m now tnew with ⟨h1, h⟩ |
        ⟨h1, h2, h⟩ | ⟨h1, h⟩
      · have hg' : c'.gvote p m.term = some x := by
          rw [hnodes_rr, h] at hg
          exact hg
        rw [hgv, if_neg (fun hcond => absurd hcond.2.1 (by omega))] at hg'
        have hts := hInv.ghostTermSelf p m.term
          (by rw [hg']; exact fun hc => Option.noConfusion hc)
        exact absurd hts (by omega)
      · have hg' : c'.gvote p ((c.nodes p).currentTerm) = some x := by
          rw [hnodes_rr, h] at hg
          rw [← h1]
          exact hg
        rw [hgv] at hg'
        by_cases hcond :
            (handleRequestVote (c.nodes p) m now tnew).2.2.voteGranted
                = true ∧
              m.term = (c.nodes p).currentTerm ∧ p = p ∧
              (c.nodes p).currentTerm = (c.nodes p).currentTerm ∧
              c.gvote p ((c.nodes p).currentTerm) = none
        · rw [if_pos hcond] at hg'
          have hx : m.candidateId = x := Option.some_inj.mp hg'
          refine ⟨m.candidateId, ?_, Or.inl hx⟩
          rw [hnodes_rr, h]
        · rw [if_neg hcond] at hg'
          obtain ⟨v, hvf, hval⟩ := hInv.ghostVoted p x hg'
          rcases h2 with hno | hso
          · rw [hvf] at hno
            exact Option.noConfusion hno
          · rw [hvf] at hso
            have hveq : v = m.candidateId := Option.some_inj.mp hso
            refine ⟨m.candidateId, ?_, ?_⟩
            · rw [hnodes_rr, h]
            · rw [← hveq]
              rcases hval with hval | hval
              · exact Or.inl hval
              · refine Or.inr ?_
                have hcc := cannotCount_step hstep v _ hval
                rw [hnodes_rr, h]
                show cannotCount c' v m.term
                rw [h1]
                exact hcc
      · have hgrf :
            (handleRequestVote (c.nodes p) m now tnew).2.2.voteGranted
              = false := by
          rw [h]
        have hg' : c'.gvote p ((c.nodes p).currentTerm) = some x := by
          rw [hnodes_rr, h] at hg
          exact hg
        rw [hgv, if_neg (fun hcond => by
          rw [hgrf] at hcond
          exact Bool.noConfusion hcond.1)] at hg'
        obtain ⟨v, hvf, hval⟩ := hInv.ghostVoted p x hg'
        refine ⟨v, ?_, ?_⟩
        · rw [hnodes_rr, h]
          exact hvf
        · rcases hval with hval | hval
          · exact Or.inl hval
          · refine Or.inr ?_
            have hcc := cannotCount_step hstep v _ hval
            rw [hnodes_rr, h]
            exact hcc
    · have hg' : c.gvote p ((c.nodes p).currentTerm) = some x := by
        rw [hnodes_ne p hp] at hg
        rw [hgv, if_neg (fun hcond => hp hcond.2.2.1)] at hg
        exact hg
      obtain ⟨v, hvf, hval⟩ := hInv.ghostVoted p x hg'
      refine ⟨v, ?_, ?_⟩
      · rw [hnodes_ne p hp]
        exact hvf
      · rcases hval with hval | hval
        · exact Or.inl hval
        · refine Or.inr ?_
          have hcc := cannotCount_step hstep v _ hval
          rw [hnodes_ne p hp]
          exact hcc
  · intro r hcand
    by_cases hr : r = rr
    · subst hr
      rcases hrv_cases (c.nodes r) m now tnew with ⟨h1, h⟩ |
        ⟨h1, h2, h⟩ | ⟨h1, h⟩
      · rw [hnodes_rr, h] at hcand
        exact nomatch hcand
      · rw [hnodes_rr, h] at hcand
        have hcand' : (c.nodes r).state = Role.candidate := hcand
        obtain ⟨hv, hgself⟩ := hInv.votedSelf r hcand'
        rcases h2 with h2 | h2
        · rw [hv] at h2
          exact Option.noConfusion h2
        · rw [hv] at h2
          exact absurd (Option.some_inj.mp h2).symm hcand_ne
      · rw [hnodes_rr, h] at hcand
        have hgrf :
            (handleRequestVote (c.nodes r) m now tnew).2.2.voteGranted
              = false := by
          rw [h]
        have hold := hInv.candCount r hcand
        have hsupp_eq : supp c' ((c.nodes r).currentTerm) r =
            supp c ((c.nodes r).currentTerm) r := by
          apply supp_of_eq_at
          intro q
          rw [hgv, if_neg (fun hcond => by
            rw [hgrf] at hcond
            exact Bool.noConfusion hcond.1)]
        have hRV0 : cntVR c r ((c.nodes r).currentTerm) =
            (l1 ++ l2).countP
              (isGrantedVR r ((c.nodes r).currentTerm)) := by
          show c.network.countP _ = _
          rw [hnet, countP_mid,
            if_neg (fun hx => by simp [isGrantedVR] at hx), Nat.add_zero]
        have hceq' : cntVR c' r ((c.nodes r).currentTerm) =
            (l1 ++ l2).countP
              (isGrantedVR r ((c.nodes r).currentTerm)) := by
          show c'.network.countP _ = _
          rw [hnet2, List.countP_append, countP_single,
            if_neg (fun hx => by
              rw [h] at hx
              simp [isGrantedVR] at hx), Nat.add_zero]
        show (c'.nodes r).votesReceived +
            cntVR c' r ((c'.nodes r).currentTerm) ≤
          (supp c' ((c'.nodes r).currentTerm) r).card
        rw [hnodes_rr, h]
        show (c.nodes r).votesReceived +
            cntVR c' r ((c.nodes r).currentTerm) ≤
          (supp c' ((c.nodes r).currentTerm) r).card
        rw [hsupp_eq]
        omega
    · rw [hnodes_ne r hr] at hcand
      have hold := hInv.candCount r hcand
      have hRV0 : cntVR c r ((c.nodes r).currentTerm) =
          (l1 ++ l2).countP
            (isGrantedVR r ((c.nodes r).currentTerm)) := by
        show c.network.countP _ = _
        rw [hnet, countP_mid,
          if_neg (fun hx => by simp [isGrantedVR] at hx), Nat.add_zero]
      show (c'.nodes r).votesReceived +
          cntVR c' r ((c'.nodes r).currentTerm) ≤
        (supp c' ((c'.nodes r).currentTerm) r).card
      rw [hnodes_ne r hr]
      by_cases hD : isGrantedVR r ((c.nodes r).currentTerm)
          ((handleRequestVote (c.nodes rr) m now tnew).2.1,
            RaftMsg.voteResponse
              (handleRequestVote (c.nodes rr) m now tnew).2.2) = true
      · have hceq1 : cntVR c' r ((c.nodes r).currentTerm) =
            (l1 ++ l2).countP
              (isGrantedVR r ((c.nodes r).currentTerm)) + 1 := by
          show c'.network.countP _ = _
          rw [hnet2, List.countP_append, countP_single, if_pos hD]
        rcases hrv_cases (c.nodes rr) m now tnew with ⟨h1, h⟩ |
          ⟨h1, h2, h⟩ | ⟨h1, h⟩
        · rw [h] at hD
          simp [isGrantedVR] at hD
          rw [hD.1] at hcand_term
          exact absurd hcand_term (by omega)
        · rw [h] at hD
          simp [isGrantedVR] at hD
          by_cases hgnone : c.gvote rr ((c.nodes r).currentTerm) = none
          · have hgr_true :
                (handleRequestVote (c.nodes rr) m now tnew).2.2.voteGranted
                  = true := by
              rw [h]
            have hw1 : c'.gvote rr ((c.nodes r).currentTerm) =
                some m.candidateId := by
              rw [hgv, if_pos ⟨hgr_true, h1, rfl, hD.2.symm, hgnone⟩]
            have hcard : (supp c' ((c.nodes r).currentTerm) r).card =
                (supp c ((c.nodes r).currentTerm) r).card + 1 :=
              supp_write_card hgnone (by rw [hw1, hD.1])
                (fun q hqne => by
                  rw [hgv, if_neg (fun hcond => hqne hcond.2.2.1)])
            omega
          · have hsupp_eq : supp c' ((c.nodes r).currentTerm) r =
                supp c ((c.nodes r).currentTerm) r := by
              apply supp_of_eq_at
              intro q
              rw [hgv, if_neg (fun hcond => hgnone hcond.2.2.2.2)]
            cases hgy : c.gvote rr ((c.nodes r).currentTerm) with
            | none => exact absurd hgy hgnone
            | some y =>
                have hT_eq : m.term = (c.nodes r).currentTerm := by
                  rw [h1, hD.2]
                have hy_ne : y ≠ r := by
                  intro hyr
                  subst hyr
                  apply hghost_ne
                  rw [hT_eq, hgy, hD.1]
                have hgy' : c.gvote rr ((c.nodes rr).currentTerm)
                    = some y := by
                  rw [hD.2]
                  exact hgy
                obtain ⟨v, hvf, hval⟩ := hInv.ghostVoted rr y hgy'
                rcases h2 with hno | hso
                · rw [hvf] at hno
                  exact Option.noConfusion hno
                · rw [hvf] at hso
                  have hveq : v = m.candidateId :=
                    Option.some_inj.mp hso
                  rcases hval with hvy | hcc
                  · rw [hveq, hD.1] at hvy
                    exact absurd hvy.symm hy_ne
                  · rw [hveq, hD.1] at hcc
                    rw [hD.2] at hcc
                    unfold cannotCount at hcc
                    rcases hcc with hlt2 | ⟨heq2, hnc2⟩
                    · exact absurd hlt2 (lt_irrefl _)
                    · exact absurd hcand hnc2
        · rw [h] at hD
          simp [isGrantedVR] at hD
      · have hceq' : cntVR c' r ((c.nodes r).currentTerm) =
            (l1 ++ l2).countP
              (isGrantedVR r ((c.nodes r).currentTerm)) := by
          show c'.network.countP _ = _
          rw [hnet2, List.countP_append, countP_single, if_neg hD,
            Nat.add_zero]
        have hsm := hsupp_mono ((c.nodes r).currentTerm) r
        omega
  · intro r hlead
    by_cases hr : r = rr
    · subst hr
      rcases hrv_cases (c.nodes r) m now tnew with ⟨h1, h⟩ |
        ⟨h1, h2, h⟩ | ⟨h1, h⟩
      · rw [hnodes_rr, h] at hlead
        exact nomatch hlead
      · rw [hnodes_rr, h] at hlead
        have hlead' : (c.nodes r).state = Role.leader := hlead
        have h0 := hInv.leaderMaj r hlead'
        have hsm := hsupp_mono ((c.nodes r).currentTerm) r
        show n / 2 + 1 ≤ (supp c' ((c'.nodes r).currentTerm) r).card
        rw [hnodes_rr, h]
        show n / 2 + 1 ≤ (supp c' m.term r).card
        rw [h1]
        omega
      · rw [hnodes_rr, h] at hlead
        have h0 := hInv.leaderMaj r hlead
        have hsm := hsupp_mono ((c.nodes r).currentTerm) r
        show n / 2 + 1 ≤ (supp c' ((c'.nodes r).currentTerm) r).card
        rw [hnodes_rr, h]
        show n / 2 + 1 ≤ (supp c' ((c.nodes r).currentTerm) r).card
        omega
    · rw [hnodes_ne r hr] at hlead
      have h0 := hInv.leaderMaj r hlead
      have hsm := hsupp_mono ((c.nodes r).currentTerm) r
      show n / 2 + 1 ≤ (supp c' ((c'.nodes r).currentTerm) r).card
      rw [hnodes_ne r hr]
      omega

/-- Delivery of any in-flight message preserves the invariant. -/
theorem inv_deliver {n : Nat} {c : Cluster n} (hInv : Inv c) (rr : Fin n)
    (msg : RaftMsg (Fin n) FileOp)
    (l1 l2 : List (Fin n × RaftMsg (Fin n) FileOp)) (now tnew : ℚ)
    (hnet : c.network = l1 ++ (rr, msg) :: l2) :
    Inv (deliverStep c rr msg (l1 ++ l2) now tnew) := by
  cases msg with
  | requestVote m => exact inv_deliver_rv hInv rr m l1 l2 now tnew hnet
  | voteResponse m => exact inv_deliver_vr hInv rr m l1 l2 now tnew hnet
  | appendEntries m => exact inv_deliver_ae hInv rr m l1 l2 now tnew hnet
  | appendEntriesResponse m =>
      exact inv_deliver_aer hInv rr m l1 l2 now tnew hnet

/-- Every core step of the replica set preserves the invariant. -/
theorem inv_step {n : Nat} {c c' : Cluster n} (hInv : Inv c)
    (h : Step c c') : Inv c' := by
  cases h with
  | timeout rr now tnew hrole => exact inv_timeout hInv rr now tnew hrole
  | deliver rr msg l1 l2 now tnew hnet =>
      exact inv_deliver hInv rr msg l1 l2 now tnew hnet
  | heartbeat rr hl => exact inv_heartbeat hInv rr hl

/-- The invariant holds in every state reachable through the core steps. -/
theorem reachable_inv {n : Nat} {c : Cluster n} (h : ReachableCore c) :
    Inv c := by
  obtain ⟨t0, n0, hr⟩ := h
  induction hr with
  | refl => exact inv_init n t0 n0
  | tail hsteps hstep ih => exact inv_step ih hstep

/-- Two simultaneous leaders of one term would own two disjoint ghost-vote
majorities of a replica set of size `n` — impossible. -/
theorem inv_oneLeader {n : Nat} {c : Cluster n} (hInv : Inv c) :
    oneLeaderPerTerm c := by
  intro r1 r2 h1 h2 hT
  by_contra hne
  have hm1 := hInv.leaderMaj r1 h1
  have hm2 := hInv.leaderMaj r2 h2
  rw [hT] at hm1
  have hdisj : Disjoint (supp c ((c.nodes r2).currentTerm) r1)
      (supp c ((c.nodes r2).currentTerm) r2) := by
    rw [Finset.disjoint_left]
    intro p hp1 hp2
    rw [mem_supp] at hp1 hp2
    rw [hp1] at hp2
    exact hne (Option.some_inj.mp hp2)
  have hcard := Finset.card_union_of_disjoint hdisj
  have hle : ((supp c ((c.nodes r2).currentTerm) r1) ∪
      (supp c ((c.nodes r2).currentTerm) r2)).card ≤ n := by
    calc ((supp c ((c.nodes r2).currentTerm) r1) ∪
        (supp c ((c.nodes r2).currentTerm) r2)).card
        ≤ (Finset.univ : Finset (Fin n)).card :=
          Finset.card_le_card (Finset.subset_univ _)
      _ = n := Finset.card_fin n
  omega

/-! ## Claim C1 — the amended at-most-one-leader-per-term invariant -/

/-- **C1** (amended): for every replica-set state reachable through the
core steps of the system — elections, request-vote handling, vote-response
handling, append-entries and append-entries-response handling, and
heartbeats, i.e. every listed step except the external unconditional
`become_leader` initialization hook — at most one replica simultaneously
has `state = leader` and `current_term = T`, for every term `T`. -/
theorem C1_amended {n : Nat} (c : Cluster n) (h : ReachableCore c) :
    oneLeaderPerTerm c :=
  inv_oneLeader (reachable_inv h)

/-- Witness for `C1_amended` at a concrete reachable state: the
three-replica initial set after replica 0's election timeout fires. -/
theorem C1_amended_witness :
    oneLeaderPerTerm
      (electionStep (initCluster 3 (fun _ => 1) (fun _ => 0)) 0 2 3) :=
  C1_amended (electionStep (initCluster 3 (fun _ => 1) (fun _ => 0)) 0 2 3)
    ⟨fun _ => 1, fun _ => 0,
      Relation.ReflTransGen.single
        (Step.timeout (initCluster 3 (fun _ => 1) (fun _ => 0)) 0 2 3
          (Or.inl rfl))⟩

end DFS
